import Mathlib

set_option maxHeartbeats 1000000

/-!
Shallow embedding of the rate-sheet CSV-to-HTML services of this repository:
`src/server.js`, `src/unnamed/part_000` and `src/unnamed/part_001`.

JS strings are modelled as `List Char`, sheet rows as lists of cells and a
sheet as a list of rows.  JS builtins used by the sources are modelled as
follows: `String#trim` trims the JS whitespace set (ASCII subset);
`parseFloat` and number-to-string conversion are modelled over exact decimal
numbers (sign, mantissa, scale) — IEEE-754 rounding, the `Infinity` literal
and the exponent-form output of `Number#toString` are outside the model;
`toLowerCase`/`toUpperCase` are ASCII case maps; `localeCompare` is modelled
as code-point order; `Array#sort` as a stable insertion sort by the
comparator.  Cells absent from a row (JS `undefined`) are conflated with the
empty string, which is sound here because every source site either guards
access with a truthiness test or indexes inside the row.
-/

abbrev Cell := List Char
abbrev Row := List Cell
abbrev Sheet := List Row

/-- JS whitespace test (ASCII part of the `\s` class used by `trim`). -/
def isJsWs (c : Char) : Bool :=
  c == ' ' || c == '\t' || c == '\n' || c == '\r' || c == '\x0b' || c == '\x0c'

/-- Model of `String#trimStart`. -/
def jsTrimStart (l : List Char) : List Char := l.dropWhile isJsWs

/-- Model of `String#trimEnd`. -/
def jsTrimEnd (l : List Char) : List Char := l.rdropWhile isJsWs

/-- Model of `String#trim`. -/
def jsTrim (l : List Char) : List Char := jsTrimEnd (jsTrimStart l)

/-- The apostrophe character, written by code to avoid a bare quote literal. -/
def aposC : Char := Char.ofNat 39

/-- JS array indexing `row[i]` for a possibly out-of-range or negative index;
`undefined` is conflated with the empty string (see module comment). -/
def getCell (row : Row) (i : Int) : Cell :=
  if 0 ≤ i then row.getD i.toNat [] else []

-- ---------------------------------------------------------------------------
-- Decimal numbers: the model of JS `parseFloat` / `String(number)`.
-- ---------------------------------------------------------------------------

/-- Substring test, the model of JS `String#includes`. -/
def hasSubstr (needle : List Char) : List Char → Bool
  | [] => needle.isEmpty
  | c :: rest => needle.isPrefixOf (c :: rest) || hasSubstr needle rest

/-- Position-indexed scan behind the model of JS `String#indexOf`. -/
def jsIndexOfAux (p : List Char) : List Char → Nat → Int
  | [], i => if p.isPrefixOf ([] : List Char) then (i : Int) else -1
  | c :: rest, i => if p.isPrefixOf (c :: rest) then (i : Int) else jsIndexOfAux p rest (i + 1)

/-- Model of JS `String#indexOf`: index of the first occurrence, `-1` if none. -/
def jsIndexOfL (t p : List Char) : Int := jsIndexOfAux p t 0

/-- Occurrence test: `p` occurs in `t` at position `i`. -/
def occursAtB (p t : List Char) (i : Nat) : Bool := p.isPrefixOf (t.drop i)

/-- Model of a global single-character `String#replace` (e.g. `/&/g`). -/
def replaceCharAll (l : List Char) (target : Char) (repl : List Char) : List Char :=
  l.flatMap (fun c => if c = target then repl else [c])

/-- Model of `String#split(/\r?\n/)`. -/
def splitRN : List Char → List (List Char)
  | [] => [[]]
  | '\r' :: '\n' :: rest => [] :: splitRN rest
  | '\n' :: rest => [] :: splitRN rest
  | c :: rest =>
    match splitRN rest with
    | [] => [[c]]
    | part :: parts => (c :: part) :: parts

/-- Code-point comparison of strings (the model of `localeCompare`; see the
module comment). -/
def lexCmp : List Char → List Char → Ordering
  | [], [] => .eq
  | [], _ :: _ => .lt
  | _ :: _, [] => .gt
  | a :: as, b :: bs =>
    match compare a.toNat b.toNat with
    | .eq => lexCmp as bs
    | o => o

/-- Stable insertion into a list sorted by `le`. -/
def insertByC {α : Type} (le : α → α → Bool) (x : α) : List α → List α
  | [] => [x]
  | y :: t => if le x y then x :: y :: t else y :: insertByC le x t

/-- Stable insertion sort, the model of `Array#sort` with a comparator. -/
def sortByC {α : Type} (le : α → α → Bool) : List α → List α
  | [] => []
  | x :: t => insertByC le x (sortByC le t)

/-- Sort by a three-way comparator (an element goes before another iff the
comparator does not answer `gt`, which keeps ties in input order). -/
def sortWithCmp (cmp : List Char → List Char → Ordering) (l : List (List Char)) : List (List Char) :=
  sortByC (fun a b => decide (cmp a b ≠ Ordering.gt)) l

/-- Association-list lookup (JS `Map#get` / object property read). -/
def lookupA {α β : Type} [DecidableEq α] : List (α × β) → α → Option β
  | [], _ => none
  | kv :: t, key => if kv.1 = key then some kv.2 else lookupA t key

/-- Key-membership test (JS `Map#has` / truthiness of a property). -/
def containsKeyA {α β : Type} [DecidableEq α] (m : List (α × β)) (k : α) : Bool :=
  (lookupA m k).isSome

/-- In-place update of the value stored under a key, keeping entry order
(JS mutation of a `Map` value / object property). -/
def mapUpdateA {α β : Type} [DecidableEq α] (m : List (α × β)) (key : α) (f : β → β) :
    List (α × β) :=
  m.map (fun kv => if kv.1 = key then (kv.1, f kv.2) else kv)

/-- Property write: overwrite in place when present, append otherwise
(JS `obj[k] = v` / `Map#set`). -/
def setPropA {α β : Type} [DecidableEq α] (m : List (α × β)) (key : α) (v : β) : List (α × β) :=
  if containsKeyA m key then mapUpdateA m key (fun _ => v) else m ++ [(key, v)]

/-- Insertion-ordered set `add` (JS `Set#add`). -/
def setAddA {α : Type} [DecidableEq α] (s : List α) (x : α) : List α :=
  if x ∈ s then s else s ++ [x]

/-- Exact-match column index (JS `Array#indexOf` on a header row). -/
def jsIndexOfExact (header : Row) (name : Cell) : Int :=
  match header.findIdx? (fun c => c == name) with
  | some i => (i : Int)
  | none => -1

/-- An exact decimal number: value `(-1)^neg * m / 10^k`. -/
structure Dec where
  neg : Bool
  m : Nat
  k : Nat
deriving DecidableEq, Repr

/-- Numeric value of an ASCII digit character. -/
def charToDigit (c : Char) : Nat := c.toNat - 48

/-- ASCII digit character of a value below ten. -/
def digitToChar (d : Nat) : Char := Char.ofNat (48 + d)

/-- Big-endian digit-string value (Horner evaluation). -/
def digitsVal (cs : List Char) : Nat := cs.foldl (fun a c => 10 * a + charToDigit c) 0

/-- Fuel-based big-endian digit extraction (structural, so that the kernel
can evaluate it on concrete numbers). -/
def natToDigitsAux : Nat → Nat → List Char
  | 0, _ => []
  | fuel + 1, n =>
    if n = 0 then [] else natToDigitsAux fuel (n / 10) ++ [digitToChar (n % 10)]

/-- Big-endian decimal digit string of a natural number. -/
def natToDigitsL (n : Nat) : List Char :=
  if n = 0 then ['0'] else natToDigitsAux n n

/-- Optional sign at the head of a numeric literal. -/
def parseSign (l : List Char) : Bool × List Char :=
  if l.head? = some '-' then (true, l.tail)
  else if l.head? = some '+' then (false, l.tail)
  else (false, l)

/-- Optional exponent part of a JS numeric literal; an `e`/`E` not followed
by digits is ignored, as `parseFloat` does. -/
def parseExp (l : List Char) : Int :=
  if l.head? = some 'e' ∨ l.head? = some 'E' then
    if l.tail.head? = some '-' then
      (let ds := l.tail.tail.takeWhile Char.isDigit
       if ds = [] then 0 else -(digitsVal ds : Int))
    else if l.tail.head? = some '+' then
      (let ds := l.tail.tail.takeWhile Char.isDigit
       if ds = [] then 0 else (digitsVal ds : Int))
    else
      (let ds := l.tail.takeWhile Char.isDigit
       if ds = [] then 0 else (digitsVal ds : Int))
  else 0

/-- Apply an exponent to a mantissa/scale pair. -/
def applyExp (d : Dec) (e : Int) : Dec :=
  if 0 ≤ e then ⟨d.neg, d.m * 10 ^ e.toNat, d.k⟩ else ⟨d.neg, d.m, d.k + (-e).toNat⟩

/-- Unsigned part of the `parseFloat` model: longest `digits [. digits]`
prefix, then an optional exponent; trailing junk ignored. -/
def jsParseCore (sg : Bool) (l2 : List Char) : Option Dec :=
  let ds := l2.takeWhile Char.isDigit
  let r1 := l2.dropWhile Char.isDigit
  let fs := if r1.head? = some '.' then r1.tail.takeWhile Char.isDigit else []
  let r2 := if r1.head? = some '.' then r1.tail.dropWhile Char.isDigit else r1
  if ds = [] ∧ fs = [] then none
  else some (applyExp ⟨sg, digitsVal ds * 10 ^ fs.length + digitsVal fs, fs.length⟩ (parseExp r2))

/-- Model of JS `parseFloat`: leading whitespace skipped, optional sign,
longest decimal-literal prefix, trailing junk ignored, `none` for NaN. -/
def jsParseFloatL (l : List Char) : Option Dec :=
  let l1 := l.dropWhile isJsWs
  jsParseCore (parseSign l1).1 (parseSign l1).2

/-- Strip trailing zero scale digits and normalise the sign of zero: two
`Dec`s denote the same JS number iff they canonicalise alike. -/
def canonAux (neg : Bool) : Nat → Nat → Dec
  | m, 0 => if m = 0 then ⟨false, 0, 0⟩ else ⟨neg, m, 0⟩
  | m, k + 1 => if m % 10 = 0 then canonAux neg (m / 10) k else ⟨neg, m, k + 1⟩

/-- Canonical form of a decimal number. -/
def canonDec (d : Dec) : Dec := canonAux d.neg d.m d.k

/-- Fixed-notation rendering of a decimal (sign, integer part, fraction). -/
def decRender (d : Dec) : List Char :=
  let sgn : List Char := if d.neg ∧ d.m ≠ 0 then ['-'] else []
  if d.k = 0 then sgn ++ natToDigitsL d.m
  else
    sgn ++ natToDigitsL (d.m / 10 ^ d.k) ++
      ('.' :: (List.replicate (d.k - (natToDigitsL (d.m % 10 ^ d.k)).length) '0' ++
        natToDigitsL (d.m % 10 ^ d.k)))

/-- Model of JS `String(number)` on the decimals produced by `parseFloat`. -/
def jsNumToString (d : Dec) : List Char := decRender (canonDec d)

/-- Model of `String#replace(/\.0+$/, "")` (dead on JS number strings, kept
for faithfulness to the source text of `termLabelFrom`). -/
def jsStripDotZeros (l : List Char) : List Char :=
  let r := l.reverse
  let zs := r.takeWhile (fun c => c = '0')
  if zs ≠ [] ∧ (r.drop zs.length).head? = some '.' then (r.drop (zs.length + 1)).reverse
  else l

namespace P1

/-- Model of `termLabelFrom` in `src/unnamed/part_001` (turn `"36.0"` into
`"36M"`): trim, `parseFloat`; numbers print as `String(num)` with the dead
`.0+`-suffix strip and an `M` appended, otherwise the trimmed text. -/
def termLabelFrom (l : List Char) : List Char :=
  let str := jsTrim l
  match jsParseFloatL str with
  | some d => jsStripDotZeros (jsNumToString d) ++ ['M']
  | none => str

end P1

namespace ServerJs

/-- Match of the regex `^(\d+)\s*month/i` used by `formatTermLabel` in
`src/server.js`: the digit capture when the string starts with digits,
optional whitespace and `month` (any case).  Maximal-munch digits are
equivalent to the regex here since backtracking `\d+` cannot help: a
shorter digit run leaves a digit where `month` must start. -/
def monthDigits (s : List Char) : Option (List Char) :=
  let ds := s.takeWhile Char.isDigit
  if ds = [] then none
  else
    let rest := (s.dropWhile Char.isDigit).dropWhile isJsWs
    if (rest.take 5).map Char.toLower = ("month").data then some ds else none

/-- Model of `formatTermLabel` in `src/server.js`: `"36 Months"` becomes
`"36M"`; anything not matching `^(\d+)\s*month/i` is returned trimmed. -/
def formatTermLabel (raw : List Char) : List Char :=
  if raw = [] then []
  else
    let s := jsTrim raw
    match monthDigits s with
    | some ds => ds ++ ['M']
    | none => s

/-- Test of the regex `^tier\s+/i`: `tier` in any case and then at least one
whitespace character. -/
def tierTest (s : List Char) : Bool :=
  decide ((s.take 4).map Char.toLower = ("tier").data) &&
    (match (s.drop 4).head? with | some c => isJsWs c | none => false)

/-- Model of `formatTierLabel` in `src/server.js`: prefix `Tier ` unless the
trimmed value already matches `^tier\s+/i`. -/
def formatTierLabel (raw : List Char) : List Char :=
  if raw = [] then []
  else
    let s := jsTrim raw
    if tierTest s then s else ("Tier ").data ++ s

end ServerJs

namespace ServerJs

/-- Model of `escapeHtml` in `src/server.js`: five sequential global
replacements, ampersand first, apostrophe last. -/
def escapeHtml (l : List Char) : List Char :=
  replaceCharAll
    (replaceCharAll
      (replaceCharAll
        (replaceCharAll
          (replaceCharAll l '&' (("&amp;").data))
          '<' (("&lt;").data))
        '>' (("&gt;").data))
      '"' (("&quot;").data))
    aposC (("&#039;").data)

/-- Model of `findColumnIndex` in `src/server.js`: first column whose
lower-cased header contains the lower-cased keyword; `-1` if none. -/
def findColumnIndex (headerRow : Row) (keyword : Cell) : Int :=
  let needle := keyword.map Char.toLower
  match headerRow.findIdx? (fun cell => !cell.isEmpty && hasSubstr needle (cell.map Char.toLower)) with
  | some i => (i : Int)
  | none => -1

/-- Keyword loop behind `findAnyColumnIndex`. -/
def findAnyColumnIndexAux (lower : List Cell) : List Cell → Int
  | [] => -1
  | kw :: rest =>
    match lower.findIdx? (fun cell => hasSubstr (kw.map Char.toLower) cell) with
    | some i => (i : Int)
    | none => findAnyColumnIndexAux lower rest

/-- Model of `findAnyColumnIndex` in `src/server.js`: first column matched
by any keyword, keywords tried in order. -/
def findAnyColumnIndex (headerRow : Row) (keywords : List Cell) : Int :=
  findAnyColumnIndexAux (headerRow.map (fun c => c.map Char.toLower)) keywords

/-- Model of `simpleTableHtml` in `src/server.js` (generic fallback table). -/
def simpleTableHtml (rows : Sheet) : List Char :=
  match rows with
  | [] => ("<p>No data found.</p>").data
  | headerRow :: dataRows =>
    ("<table class=\"rate-sheet-table\"><thead><tr>").data
    ++ (headerRow.map (fun cell => ("<th>").data ++ escapeHtml cell ++ ("</th>").data)).flatten
    ++ ("</tr></thead><tbody>").data
    ++ (dataRows.map (fun row =>
          if row.any (fun c => !c.isEmpty && !(jsTrim c).isEmpty) then
            ("<tr>").data
            ++ ((List.range headerRow.length).map
                  (fun i => ("<td>").data ++ escapeHtml (row.getD i []) ++ ("</td>").data)).flatten
            ++ ("</tr>").data
          else [])).flatten
    ++ ("</tbody></table>").data

/-- Per-tier metadata record of `buildPromoBlock` (`{ dp, cap, fee }`). -/
structure MetaS where
  dp : Cell
  cap : Cell
  fee : Cell
deriving DecidableEq, Repr

/-- The column indices located once by `generateRateSheetHtml`. -/
structure PromoIdx where
  tierIdx : Int
  rateIdx : Int
  termIdx : Int
  dpIdx : Int
  capIdx : Int
  feeIdx : Int
  eligibilityIdx : Int
  productIdx : Int
  modelYearsIdx : Int
deriving DecidableEq, Repr

/-- Pivot state of `buildPromoBlock`: the `termSet` set, the
`tierMap` tier-to-(term-to-rate) map and the `tierMeta` map, all in
insertion order. -/
structure PromoState where
  termSet : List Cell
  tierMap : List (Cell × List (Cell × Cell))
  tierMeta : List (Cell × MetaS)
deriving DecidableEq, Repr

/-- The metadata mutation of the pivot loop for one row: each field is
filled from its column only when the column exists, the raw cell is
non-empty (truthy) and the field is still empty. -/
def metaUpdate (idx : PromoIdx) (row : Row) (meta : MetaS) : MetaS :=
  let m1 := if idx.dpIdx ≠ -1 ∧ getCell row idx.dpIdx ≠ [] ∧ meta.dp = [] then
      (⟨jsTrim (getCell row idx.dpIdx), meta.cap, meta.fee⟩ : MetaS) else meta
  let m2 := if idx.capIdx ≠ -1 ∧ getCell row idx.capIdx ≠ [] ∧ m1.cap = [] then
      (⟨m1.dp, jsTrim (getCell row idx.capIdx), m1.fee⟩ : MetaS) else m1
  if idx.feeIdx ≠ -1 ∧ getCell row idx.feeIdx ≠ [] ∧ m2.fee = [] then
      ⟨m2.dp, m2.cap, jsTrim (getCell row idx.feeIdx)⟩ else m2

/-- One iteration of the pivot loop of `buildPromoBlock` over a data row:
rows missing tier, rate or term are skipped; otherwise the term is added to
the term set, the tier is created on first sight, the rate cell is written
(overwriting any previous value for the same tier and term) and each
metadata field is filled only while still empty. -/
def promoStep (idx : PromoIdx) (st : PromoState) (row : Row) : PromoState :=
  let tierRaw := getCell row idx.tierIdx
  let rateRaw := getCell row idx.rateIdx
  let termRaw := getCell row idx.termIdx
  if tierRaw = [] ∨ rateRaw = [] ∨ termRaw = [] then st
  else
    let tierLabel := formatTierLabel tierRaw
    let termLabel := formatTermLabel termRaw
    let termSet1 := setAddA st.termSet termLabel
    let tierMap1 :=
      if containsKeyA st.tierMap tierLabel then st.tierMap else st.tierMap ++ [(tierLabel, [])]
    let tierMeta1 :=
      if containsKeyA st.tierMap tierLabel then st.tierMeta
      else st.tierMeta ++ [(tierLabel, ⟨[], [], []⟩)]
    let rateStr := jsTrim rateRaw
    let tierMap2 := mapUpdateA tierMap1 tierLabel (fun inner => setPropA inner termLabel rateStr)
    let tierMeta2 := mapUpdateA tierMeta1 tierLabel (metaUpdate idx row)
    ⟨termSet1, tierMap2, tierMeta2⟩

/-- The whole pivot loop of `buildPromoBlock`. -/
def buildPromoState (idx : PromoIdx) (rows : Sheet) : PromoState :=
  rows.foldl (promoStep idx) ⟨[], [], []⟩

/-- Term-label comparator of `buildPromoBlock`: numeric prefixes compare as
numbers, otherwise `localeCompare` (modelled as code-point order). -/
def termCmp (a b : Cell) : Ordering :=
  let da := a.takeWhile Char.isDigit
  let db := b.takeWhile Char.isDigit
  if da ≠ [] ∧ db ≠ [] then compare (digitsVal da) (digitsVal db)
  else lexCmp a b

/-- Eligibility text of one row (`buildPromoBlock`, eligibility section):
the explicit eligibility column if present and non-empty, otherwise
`Product (ModelYears)` composed from whichever of the two is present. -/
def eligText (idx : PromoIdx) (row : Row) : Cell :=
  if idx.eligibilityIdx ≠ -1 ∧ getCell row idx.eligibilityIdx ≠ [] then
    jsTrim (getCell row idx.eligibilityIdx)
  else
    let product := if idx.productIdx ≠ -1 ∧ getCell row idx.productIdx ≠ [] then
        jsTrim (getCell row idx.productIdx) else []
    let years := if idx.modelYearsIdx ≠ -1 ∧ getCell row idx.modelYearsIdx ≠ [] then
        jsTrim (getCell row idx.modelYearsIdx) else []
    if product ≠ [] ∨ years ≠ [] then
      if product ≠ [] ∧ years ≠ [] then product ++ (" (").data ++ years ++ (")").data
      else if product ≠ [] then product else years
    else []

/-- Deduplicated, insertion-ordered eligibility set over all rows of a
block (rows skipped by the pivot still contribute here, as in the source). -/
def eligSet (idx : PromoIdx) (rows : Sheet) : List Cell :=
  rows.foldl (fun s row => let t := eligText idx row; if t ≠ [] then setAddA s t else s) []

/-- HTML of the eligibility list items of one block. -/
def eligItemsHtml (items : List Cell) : List Char :=
  (items.map (fun item =>
    let parts := ((splitRN item).map jsTrim).filter (fun p => !p.isEmpty)
    if parts.length > 1 then
      (parts.map (fun p =>
        ("<li><span class=\"font-medium\">").data ++ escapeHtml p ++ ("</span></li>").data)).flatten
    else
      ("<li><span class=\"font-medium\">").data ++ escapeHtml item ++ ("</span></li>").data)).flatten

/-- Model of `buildPromoBlock` in `src/server.js`: empty string when the
pivot found no tier or no term, otherwise the full HTML block (table plus
optional eligibility list).  The `heading` parameter is accepted and unused,
as in the source. -/
def buildPromoBlock (idx : PromoIdx) (heading : Cell) (dataRows : Sheet) : List Char :=
  let st := buildPromoState idx dataRows
  if st.tierMap = [] ∨ st.termSet = [] then []
  else
    let termLabels := sortWithCmp termCmp st.termSet
    let tierLabels := st.tierMap.map Prod.fst
    let _ := heading
    ("<div class=\"mb-20\">").data
    ++ ("<div class=\"overflow-x-auto\">").data
    ++ ("<table class=\"min-w-full divide-y divide-x divide-gray-300 border border-gray-300\">").data
    ++ ("<thead class=\"bg-gray-100\"><tr>").data
    ++ ("<th scope=\"col\" class=\"px-4 py-3 text-left text-xs font-semibold uppercase tracking-wider whitespace-nowrap text-left\">Tiers</th>").data
    ++ (termLabels.map (fun term =>
          ("<th scope=\"col\" class=\"px-4 py-3 text-left text-xs font-semibold uppercase tracking-wider whitespace-nowrap text-center\">").data
          ++ escapeHtml term ++ ("</th>").data)).flatten
    ++ (if idx.dpIdx ≠ -1 then
          ("<th scope=\"col\" class=\"px-4 py-3 text-left text-xs font-semibold uppercase tracking-wider whitespace-nowrap text-right\">Down Payment</th>").data
        else [])
    ++ (if idx.capIdx ≠ -1 then
          ("<th scope=\"col\" class=\"px-4 py-3 text-left text-xs font-semibold uppercase tracking-wider whitespace-nowrap text-right\">Front-End Cap</th>").data
        else [])
    ++ (if idx.feeIdx ≠ -1 then
          ("<th scope=\"col\" class=\"px-4 py-3 text-left text-xs font-semibold uppercase tracking-wider whitespace-nowrap text-right\">Dealer Fee</th>").data
        else [])
    ++ ("</tr></thead>").data
    ++ ("<tbody class=\"bg-white divide-y divide-x divide-gray-200\">").data
    ++ (tierLabels.map (fun tier =>
          let rowMap := (lookupA st.tierMap tier).getD []
          let meta := (lookupA st.tierMeta tier).getD ⟨[], [], []⟩
          ("<tr class=\"hover:bg-gray-50\">").data
          ++ ("<td class=\"px-4 py-3 whitespace-nowrap text-sm font-medium text-gray-900\">").data
          ++ escapeHtml tier ++ ("</td>").data
          ++ (termLabels.map (fun term =>
                ("<td class=\"px-4 py-3 whitespace-nowrap text-sm text-center font-mono text-gray-700\">").data
                ++ escapeHtml ((lookupA rowMap term).getD []) ++ ("</td>").data)).flatten
          ++ (if idx.dpIdx ≠ -1 then
                ("<td class=\"px-4 py-3 whitespace-nowrap text-sm text-right text-gray-700\">").data
                ++ escapeHtml meta.dp ++ ("</td>").data
              else [])
          ++ (if idx.capIdx ≠ -1 then
                ("<td class=\"px-4 py-3 whitespace-nowrap text-sm text-right text-gray-700\">").data
                ++ escapeHtml meta.cap ++ ("</td>").data
              else [])
          ++ (if idx.feeIdx ≠ -1 then
                ("<td class=\"px-4 py-3 whitespace-nowrap text-sm text-right text-gray-700\">").data
                ++ escapeHtml meta.fee ++ ("</td>").data
              else [])
          ++ ("</tr>").data)).flatten
    ++ ("</tbody></table></div>").data
    ++ (let eligItems := eligSet idx dataRows
        if eligItems ≠ [] then
          ("<div class=\"mt-3 text-left\">").data
          ++ ("<h3 class=\"text-lg font-semibold mb-2 text-gray-700 text-left\">Eligible Products/Models:</h3>").data
          ++ ("<ul class=\"list-disc list-inside space-y-1 text-sm text-gray-600 pl-4 text-left\">").data
          ++ eligItemsHtml eligItems
          ++ ("</ul></div>").data
        else [])
    ++ ("</div>").data

/-- Grouping key of one data row in `generateRateSheetHtml`: trimmed
Program Name Stub value if that column exists and the cell is non-empty,
else trimmed Program Name value likewise, else empty. -/
def rowKey (stubIdx nameIdx : Int) (row : Row) : Cell :=
  if stubIdx ≠ -1 ∧ getCell row stubIdx ≠ [] then jsTrim (getCell row stubIdx)
  else if nameIdx ≠ -1 ∧ getCell row nameIdx ≠ [] then jsTrim (getCell row nameIdx)
  else []

/-- Append a row to its group, creating the group on first sight
(JS `Map` of arrays, insertion-ordered). -/
def groupAdd (m : List (Cell × Sheet)) (k : Cell) (row : Row) : List (Cell × Sheet) :=
  if containsKeyA m k then mapUpdateA m k (fun l => l ++ [row]) else m ++ [(k, [row])]

/-- The `groupMap` loop of `generateRateSheetHtml`: rows with an empty
grouping key are dropped. -/
def buildGroupMap (stubIdx nameIdx : Int) (rows : Sheet) : List (Cell × Sheet) :=
  rows.foldl
    (fun m row =>
      let k := rowKey stubIdx nameIdx row
      if k = [] then m else groupAdd m k row) []

/-- The keyword list for the eligibility column of `generateRateSheetHtml`. -/
def eligibilityKeywords : List Cell :=
  [("eligibility list").data, ("eligible products/models").data, ("eligible products").data,
   ("eligible models").data, ("eligible makes").data, ("makes & models").data,
   ("makes and models").data, ("eligibility").data, ("eligible").data]

/-- The keyword list for the model-years column of `generateRateSheetHtml`. -/
def modelYearsKeywords : List Cell :=
  [("eligible model years").data, ("model years").data, ("model year").data]

/-- The column-index record located by `generateRateSheetHtml`. -/
def serverIndices (headerRow : Row) : PromoIdx :=
  ⟨findColumnIndex headerRow (("tier").data),
   findColumnIndex headerRow (("interest rate").data),
   findColumnIndex headerRow (("repayment term").data),
   findColumnIndex headerRow (("down payment").data),
   findColumnIndex headerRow (("front-end cap").data),
   findColumnIndex headerRow (("dealer fee").data),
   findAnyColumnIndex headerRow eligibilityKeywords,
   findAnyColumnIndex headerRow [("product").data],
   findAnyColumnIndex headerRow modelYearsKeywords⟩

/-- Model of `generateRateSheetHtml` in `src/server.js`. -/
def generateRateSheetHtml (rows : Sheet) : List Char :=
  match rows with
  | [] => ("<p>No data found.</p>").data
  | headerRow :: dataRows =>
    let idx := serverIndices headerRow
    if idx.tierIdx = -1 ∨ idx.rateIdx = -1 ∨ idx.termIdx = -1 then
      simpleTableHtml (headerRow :: dataRows)
    else
      let programNameIdx := findColumnIndex headerRow (("program name").data)
      let programStubIdx := findColumnIndex headerRow (("program name stub").data)
      let html :=
        if programStubIdx ≠ -1 ∨ programNameIdx ≠ -1 then
          let gm := buildGroupMap programStubIdx programNameIdx dataRows
          if gm = [] then
            let heading :=
              if programNameIdx ≠ -1 ∧ getCell (dataRows.getD 0 []) programNameIdx ≠ [] then
                jsTrim (getCell (dataRows.getD 0 []) programNameIdx)
              else ("Promotional Rates").data
            buildPromoBlock idx heading dataRows
          else
            gm.foldl (fun acc kv =>
              let heading :=
                match (if programNameIdx ≠ -1 then
                    kv.2.find? (fun r =>
                      decide (getCell r programNameIdx ≠ [] ∧ jsTrim (getCell r programNameIdx) ≠ []))
                  else none) with
                | some r => jsTrim (getCell r programNameIdx)
                | none => kv.1
              let b := buildPromoBlock idx heading kv.2
              if b ≠ [] then acc ++ b else acc) []
        else
          buildPromoBlock idx (("Promotional Rates").data) dataRows
      if html = [] then ("<p>No promo data found.</p>").data else html

end ServerJs

namespace P0

/-- Model of `clean` in `src/unnamed/part_000`: strip every CR/LF, then trim. -/
def clean (l : List Char) : List Char :=
  jsTrim (l.filter (fun c => !(c == '\r' || c == '\n')))

/-- The layout variants reported by `detectCsvType`. -/
inductive DetectT
  | promo
  | standard
  | unknown
deriving DecidableEq, Repr

/-- Model of `detectCsvType` in `src/unnamed/part_000`; `none` models the
TypeError thrown on an empty row list (reading `rows[0]`). -/
def detectCsvType (rows : Sheet) : Option DetectT :=
  match rows with
  | [] => none
  | h :: _ =>
    let headerRow := List.intercalate ((" | ").data) (h.map clean)
    if hasSubstr (("Table Group").data) headerRow &&
        hasSubstr (("Eligible Products").data) headerRow then some .promo
    else
      let first10 :=
        List.intercalate ((" ").data) ((rows.take 10).map (List.intercalate ((" ").data)))
      if hasSubstr (("STANDARD PROGRAM").data) (first10.map Char.toUpper) then some .standard
      else some .unknown

/-- One group accumulated by `parsePromo`: its cleaned rows and the first
product line seen. -/
structure PromoGroup where
  rows : Sheet
  productLine : Cell
deriving DecidableEq, Repr

/-- Model of `parsePromo` in `src/unnamed/part_000`: exact header matches
for the trio, error when any is missing, rows grouped by the Table Group
value with rows having an empty group value skipped. -/
def parsePromo (rows : Sheet) : Except (List Char) (List (Cell × PromoGroup)) :=
  match rows with
  | [] => .error ("TypeError").data
  | h :: rest =>
    let header := h.map clean
    let groupIndex := jsIndexOfExact header (("Table Group").data)
    let productIndex := jsIndexOfExact header (("Eligible Products/Models").data)
    let tiersIndex := jsIndexOfExact header (("Tiers").data)
    if groupIndex = -1 ∨ productIndex = -1 ∨ tiersIndex = -1 then
      .error ("CSV missing required promotional headers.").data
    else
      .ok (rest.foldl (fun grouped rawRow =>
        let row := rawRow.map clean
        if getCell row groupIndex = [] then grouped
        else
          let group := getCell row groupIndex
          let grouped1 :=
            if containsKeyA grouped group then grouped else grouped ++ [(group, ⟨[], []⟩)]
          mapUpdateA grouped1 group (fun g =>
            ⟨g.rows ++ [row],
             if g.productLine = [] then getCell row productIndex else g.productLine⟩)) [])

/-- A sub-table assembled by `parseStandard` and fed to `generateTableHTML`. -/
structure TableS where
  title : Cell
  headers : Row
  rows : Sheet
deriving DecidableEq, Repr

/-- Model of `generateTableHTML` in `src/unnamed/part_000`: the title is
interpolated raw and every header/data cell goes through `clean` only — no
HTML escaping anywhere in this renderer. -/
def generateTableHTML (table : TableS) : List Char :=
  ("\n    <h3 class=\"section-title\">").data ++ table.title
  ++ ("</h3>\n    <table>\n      <thead>\n        <tr>").data
  ++ (table.headers.map (fun h => ("<th>").data ++ clean h ++ ("</th>").data)).flatten
  ++ ("</tr>\n      </thead>\n      <tbody>\n        ").data
  ++ (table.rows.map (fun row =>
        ("<tr>").data
        ++ (row.map (fun c => ("<td>").data ++ clean c ++ ("</td>").data)).flatten
        ++ ("</tr>").data)).flatten
  ++ ("\n      </tbody>\n    </table>\n  ").data

end P0

namespace P1

/-- Model of `escapeHtml` in `src/unnamed/part_001`: four sequential global
replacements — the apostrophe is NOT escaped by this variant. -/
def escapeHtml (l : List Char) : List Char :=
  replaceCharAll
    (replaceCharAll
      (replaceCharAll
        (replaceCharAll l '&' (("&amp;").data))
        '<' (("&lt;").data))
      '>' (("&gt;").data))
    '"' (("&quot;").data)

/-- The column indices located by `buildTablesHtmlFromCsv` (exact header
matches). -/
structure P1Idx where
  product : Int
  years : Int
  term : Int
  rate1 : Int
  rate112 : Int
  rate2 : Int
  rate21 : Int
  rate22 : Int
  fee1 : Int
  fee112 : Int
  fee2 : Int
  fee21 : Int
  fee22 : Int
deriving DecidableEq, Repr

/-- The exact `indexOf` header lookups of `buildTablesHtmlFromCsv`. -/
def p1Indices (headerRow : Row) : P1Idx :=
  ⟨jsIndexOfExact headerRow (("Product").data),
   jsIndexOfExact headerRow (("Eligible Model Years").data),
   jsIndexOfExact headerRow (("Repayment Term").data),
   jsIndexOfExact headerRow (("Promo Rate RT 1").data),
   jsIndexOfExact headerRow (("Promo Rate RT 1.12").data),
   jsIndexOfExact headerRow (("Promo Rate RT 2").data),
   jsIndexOfExact headerRow (("Promo Rate RT 2.1").data),
   jsIndexOfExact headerRow (("Promo Rate RT 2.2").data),
   jsIndexOfExact headerRow (("Dealer Fee RT 1").data),
   jsIndexOfExact headerRow (("Dealer Fee RT 1.12").data),
   jsIndexOfExact headerRow (("Dealer Fee RT 2").data),
   jsIndexOfExact headerRow (("Dealer Fee RT 2.1").data),
   jsIndexOfExact headerRow (("Dealer Fee RT 2.2").data)⟩

/-- One group accumulated by `buildTablesHtmlFromCsv`, keyed by
`product|||years`. -/
structure P1Group where
  product : Cell
  years : Cell
  terms : List Cell
  tierRates : List (Cell × List (Cell × Cell))
  tierFees : List (Cell × Cell)
deriving DecidableEq, Repr

/-- Model of the inner `setTier` helper of `buildTablesHtmlFromCsv`: does
nothing when the rate column is absent or its trimmed cell empty; otherwise
writes the rate under tier/term (overwriting) and, when the fee column is
present and its trimmed cell non-empty, overwrites the tier's dealer fee. -/
def setTier (row : Row) (termLabel : Cell) (g : P1Group) (tierName : Cell)
    (rateIdx feeIdx : Int) : P1Group :=
  if rateIdx = -1 then g
  else
    let rate := jsTrim (getCell row rateIdx)
    if rate = [] then g
    else
      let tierRates1 :=
        if containsKeyA g.tierRates tierName then g.tierRates else g.tierRates ++ [(tierName, [])]
      let tierRates2 := mapUpdateA tierRates1 tierName (fun inner => setPropA inner termLabel rate)
      let tierFees2 :=
        if feeIdx ≠ -1 then
          (let fee := jsTrim (getCell row feeIdx)
           if fee ≠ [] then setPropA g.tierFees tierName fee else g.tierFees)
        else g.tierFees
      { g with tierRates := tierRates2, tierFees := tierFees2 }

/-- One iteration of the grouping loop of `buildTablesHtmlFromCsv`: skip
fully blank rows, else group by `product|||years` and run the five
`setTier` calls. -/
def p1Step (idx : P1Idx) (groups : List (Cell × P1Group)) (row : Row) :
    List (Cell × P1Group) :=
  let product := jsTrim (getCell row idx.product)
  let years := jsTrim (getCell row idx.years)
  let termRaw := getCell row idx.term
  if product = [] ∧ years = [] ∧ jsTrim termRaw = [] then groups
  else
    let termLabel := termLabelFrom termRaw
    let key := product ++ ("|||").data ++ years
    let groups1 :=
      if containsKeyA groups key then groups else groups ++ [(key, ⟨product, years, [], [], []⟩)]
    mapUpdateA groups1 key (fun g =>
      let g1 := { g with terms := setAddA g.terms termLabel }
      let g2 := setTier row termLabel g1 (("Tier 1").data) idx.rate1 idx.fee1
      let g3 := setTier row termLabel g2 (("Tier 1.12").data) idx.rate112 idx.fee112
      let g4 := setTier row termLabel g3 (("Tier 2").data) idx.rate2 idx.fee2
      let g5 := setTier row termLabel g4 (("Tier 2.1").data) idx.rate21 idx.fee21
      setTier row termLabel g5 (("Tier 2.2").data) idx.rate22 idx.fee22)

/-- The grouping loop of `buildTablesHtmlFromCsv` over the data rows. -/
def p1Groups (idx : P1Idx) (dataRows : Sheet) : List (Cell × P1Group) :=
  dataRows.foldl (p1Step idx) []

/-- Signed scaled value used to compare two decimals. -/
def decVal (x : Dec) (scale : Nat) : Int :=
  (if x.neg then -(x.m : Int) else (x.m : Int)) * 10 ^ scale

/-- Three-way value comparison of two decimals. -/
def decCmp (x y : Dec) : Ordering := compare (decVal x y.k) (decVal y x.k)

/-- Term comparator of `buildTablesHtmlFromCsv`: `parseFloat` values when
both parse, else `localeCompare` (modelled as code-point order). -/
def p1TermCmp (a b : Cell) : Ordering :=
  match jsParseFloatL a, jsParseFloatL b with
  | some x, some y => decCmp x y
  | _, _ => lexCmp a b

/-- Sorted term labels of one group. -/
def p1SortTerms (terms : List Cell) : List Cell := sortWithCmp p1TermCmp terms

/-- The fixed tier ordering of `buildTablesHtmlFromCsv`. -/
def p1TierOrder : List Cell :=
  [("Tier 1").data, ("Tier 1.12").data, ("Tier 2").data, ("Tier 2.1").data, ("Tier 2.2").data]

/-- The body row cells assembled by `buildTablesHtmlFromCsv` for one group:
for each tier of the fixed order that has data, the tier name, the rate per
sorted term (empty when missing), then the constants `"0%"` and `"130%"`
and the tier's dealer fee. -/
def p1RowsFor (g : P1Group) : List (List Cell) :=
  p1TierOrder.filterMap (fun tierName =>
    match lookupA g.tierRates tierName with
    | none => none
    | some tierRates =>
      some (tierName ::
        ((p1SortTerms g.terms).map (fun tl => (lookupA tierRates tl).getD []) ++
          [("0%").data, ("130%").data, (lookupA g.tierFees tierName).getD []])))

/-- The header row cells assembled by `buildTablesHtmlFromCsv` for one group. -/
def p1HeaderCells (g : P1Group) : List Cell :=
  ("Tiers").data :: (p1SortTerms g.terms ++
    [("Down Payment").data, ("Front-End Cap").data, ("Dealer Fee").data])

/-- The start marker of `applyTablesToTemplate`. -/
def startMarker : List Char := ("<!-- TABLES_START -->").data

/-- The end marker of `applyTablesToTemplate`. -/
def endMarker : List Char := ("<!-- TABLES_END -->").data

/-- Model of `applyTablesToTemplate` in `src/unnamed/part_001`: `indexOf`
of each marker, error when either is `-1` or the end index is at or before
the start index, else the document with the region between the markers
replaced by the fragment wrapped in newlines.  Writing the result to disk
is outside the model; the spliced document is returned. -/
def applyTablesToTemplate (template tablesHtml : List Char) : Except (List Char) (List Char) :=
  let startIndex := jsIndexOfL template startMarker
  let endIndex := jsIndexOfL template endMarker
  if startIndex = -1 ∨ endIndex = -1 ∨ endIndex ≤ startIndex then
    .error ("Could not find TABLES_START / TABLES_END markers in template.html").data
  else
    .ok (template.take (startIndex.toNat + startMarker.length)
      ++ ('\n' :: tablesHtml) ++ ('\n' :: template.drop endIndex.toNat))

end P1

namespace ServerJs

/-- The row guard of the pivot loop: tier, rate and term cells all
non-empty (JS truthiness on strings). -/
def validRow (idx : PromoIdx) (row : Row) : Prop :=
  getCell row idx.tierIdx ≠ [] ∧ getCell row idx.rateIdx ≠ [] ∧ getCell row idx.termIdx ≠ []

instance (idx : PromoIdx) (row : Row) : Decidable (validRow idx row) := by
  unfold validRow
  infer_instance

/-- Rows of a block that survive the pivot guard and map to tier label `t`. -/
def filterValidTier (idx : PromoIdx) (t : Cell) (rows : Sheet) : Sheet :=
  rows.filter (fun r => decide (validRow idx r ∧ formatTierLabel (getCell r idx.tierIdx) = t))

/-- Specification helper: the first value of the list whose trimmed form is
non-empty, trimmed; empty when there is none. -/
def firstNETrim : List Cell → Cell
  | [] => []
  | v :: rest => if jsTrim v ≠ [] then jsTrim v else firstNETrim rest

/-- The pivoted rate stored for a tier and term label. -/
def rateAt (st : PromoState) (t m : Cell) : Option Cell :=
  (lookupA st.tierMap t).bind (fun inner => lookupA inner m)

/-- The metadata record the pivot is specified to produce for tier `t`. -/
def metaSpec (idx : PromoIdx) (rows : Sheet) (t : Cell) : MetaS :=
  ⟨firstNETrim ((filterValidTier idx t rows).map (fun r => getCell r idx.dpIdx)),
   firstNETrim ((filterValidTier idx t rows).map (fun r => getCell r idx.capIdx)),
   firstNETrim ((filterValidTier idx t rows).map (fun r => getCell r idx.feeIdx))⟩

end ServerJs

/-- Decidable equality for `Except`, used to evaluate parser outcomes. -/
instance {ε α : Type} [DecidableEq ε] [DecidableEq α] : DecidableEq (Except ε α) := fun a b =>
  match a, b with
  | .error e1, .error e2 =>
    if h : e1 = e2 then .isTrue (by rw [h]) else .isFalse (by intro hc; cases hc; exact h rfl)
  | .error _, .ok _ => .isFalse (by intro hc; cases hc)
  | .ok _, .error _ => .isFalse (by intro hc; cases hc)
  | .ok v1, .ok v2 =>
    if h : v1 = v2 then .isTrue (by rw [h]) else .isFalse (by intro hc; cases hc; exact h rfl)

-- ---------------------------------------------------------------------------
-- Helper lemmas: takeWhile/dropWhile, trim, digit strings.
-- ---------------------------------------------------------------------------

theorem takeWhile_append_all {α : Type} (p : α → Bool) {xs : List α} (ys : List α)
    (h : ∀ c ∈ xs, p c = true) : (xs ++ ys).takeWhile p = xs ++ ys.takeWhile p := by
  induction xs with
  | nil => simp
  | cons a t ih =>
    have ha := h a (by simp)
    simp only [List.cons_append, List.takeWhile_cons, ha, if_true]
    rw [ih (fun c hc => h c (by simp [hc]))]

theorem dropWhile_append_all {α : Type} (p : α → Bool) {xs : List α} (ys : List α)
    (h : ∀ c ∈ xs, p c = true) : (xs ++ ys).dropWhile p = ys.dropWhile p := by
  induction xs with
  | nil => simp
  | cons a t ih =>
    have ha := h a (by simp)
    simp only [List.cons_append, List.dropWhile_cons, ha, if_true]
    exact ih (fun c hc => h c (by simp [hc]))

theorem takeWhile_eq_nil_of_head {α : Type} (p : α → Bool) (l : List α)
    (h : ∀ c, l.head? = some c → p c = false) : l.takeWhile p = [] := by
  cases l with
  | nil => rfl
  | cons a t => simp [List.takeWhile_cons, h a rfl]

theorem dropWhile_eq_self_of_head {α : Type} (p : α → Bool) (l : List α)
    (h : ∀ c, l.head? = some c → p c = false) : l.dropWhile p = l := by
  cases l with
  | nil => rfl
  | cons a t => simp [List.dropWhile_cons, h a rfl]

theorem head?_dropWhile_false {α : Type} (p : α → Bool) (l : List α) {c : α}
    (h : (l.dropWhile p).head? = some c) : p c = false := by
  induction l with
  | nil => simp at h
  | cons a t ih =>
    by_cases hp : p a
    · simp only [List.dropWhile_cons, hp, if_true] at h
      exact ih h
    · simp [List.dropWhile_cons, hp] at h
      rw [← h]
      exact Bool.eq_false_iff.mpr hp

theorem jsTrimStart_jsTrim (l : List Char) : jsTrimStart (jsTrim l) = jsTrim l := by
  unfold jsTrim jsTrimEnd jsTrimStart
  apply dropWhile_eq_self_of_head
  intro c hc
  have hp : (l.dropWhile isJsWs).rdropWhile isJsWs <+: l.dropWhile isJsWs :=
    List.rdropWhile_prefix _ _
  obtain ⟨t, ht⟩ := hp
  cases h1 : (l.dropWhile isJsWs).rdropWhile isJsWs with
  | nil => rw [h1] at hc; simp at hc
  | cons x xs =>
    rw [h1] at hc ht
    simp only [List.head?_cons, Option.some.injEq] at hc
    have hhead : (l.dropWhile isJsWs).head? = some x := by
      rw [← ht]; rfl
    rw [← hc]
    exact head?_dropWhile_false isJsWs l hhead

theorem jsTrim_idem (l : List Char) : jsTrim (jsTrim l) = jsTrim l := by
  conv_lhs => rw [jsTrim]
  rw [jsTrimStart_jsTrim]
  show jsTrimEnd (jsTrimEnd (jsTrimStart l)) = _
  unfold jsTrimEnd
  exact List.rdropWhile_idempotent _ _

theorem jsTrim_eq_self {l : List Char}
    (h1 : ∀ c, l.head? = some c → isJsWs c = false)
    (h2 : ∀ c, l.getLast? = some c → isJsWs c = false) : jsTrim l = l := by
  unfold jsTrim jsTrimStart jsTrimEnd
  rw [dropWhile_eq_self_of_head _ _ h1]
  rw [List.rdropWhile_eq_self_iff]
  intro hl
  have := h2 (l.getLast hl) (List.getLast?_eq_getLast l hl)
  simp [this]

theorem charToDigit_digitToChar : ∀ d : Nat, d < 10 → charToDigit (digitToChar d) = d := by
  decide

theorem digitToChar_isDigit : ∀ d : Nat, d < 10 → (digitToChar d).isDigit = true := by
  decide

theorem digitToChar_ne_zeroChar : ∀ d : Nat, d < 10 → d ≠ 0 → ¬(digitToChar d = '0') := by
  decide

theorem isDigit_excl (c : Char) (h : c.isDigit = true) :
    c ≠ '.' ∧ c ≠ '-' ∧ c ≠ '+' ∧ c ≠ 'e' ∧ c ≠ 'E' ∧ c ≠ 'M' := by
  refine ⟨?_, ?_, ?_, ?_, ?_, ?_⟩ <;>
    (intro hc; subst hc; exact absurd h (by decide))

theorem isDigit_not_ws (c : Char) (h : c.isDigit = true) : isJsWs c = false := by
  have h1 : ¬(c = ' ') := fun hc => by subst hc; exact absurd h (by decide)
  have h2 : ¬(c = '\t') := fun hc => by subst hc; exact absurd h (by decide)
  have h3 : ¬(c = '\n') := fun hc => by subst hc; exact absurd h (by decide)
  have h4 : ¬(c = '\r') := fun hc => by subst hc; exact absurd h (by decide)
  have h5 : ¬(c = '\x0b') := fun hc => by subst hc; exact absurd h (by decide)
  have h6 : ¬(c = '\x0c') := fun hc => by subst hc; exact absurd h (by decide)
  simp [isJsWs, h1, h2, h3, h4, h5, h6]

theorem natToDigitsAux_eq (fuel : Nat) : ∀ n : Nat, n ≤ fuel →
    natToDigitsAux fuel n = ((Nat.digits 10 n).map digitToChar).reverse := by
  induction fuel with
  | zero =>
    intro n hn
    have : n = 0 := Nat.le_zero.mp hn
    subst this
    simp [natToDigitsAux]
  | succ fuel ih =>
    intro n hn
    by_cases h : n = 0
    · subst h
      simp [natToDigitsAux]
    · have hdiv : n / 10 ≤ fuel := by
        have : n / 10 < n := Nat.div_lt_self (Nat.pos_of_ne_zero h) (by norm_num)
        omega
      rw [show natToDigitsAux (fuel + 1) n
          = natToDigitsAux fuel (n / 10) ++ [digitToChar (n % 10)] from by
            simp [natToDigitsAux, h]]
      rw [ih _ hdiv, Nat.digits_def' (by norm_num : (1:ℕ) < 10) (Nat.pos_of_ne_zero h)]
      simp

theorem natToDigitsL_eq_digits (n : Nat) :
    natToDigitsL n = if n = 0 then ['0'] else ((Nat.digits 10 n).map digitToChar).reverse := by
  unfold natToDigitsL
  by_cases h : n = 0
  · simp [h]
  · rw [if_neg h, if_neg h, natToDigitsAux_eq n n (le_refl n)]

theorem digitsVal_rev_map (L : List Nat) (h : ∀ d ∈ L, d < 10) : ∀ acc : Nat,
    ((L.map digitToChar).reverse).foldl (fun a c => 10 * a + charToDigit c) acc
      = acc * 10 ^ L.length + Nat.ofDigits 10 L := by
  induction L with
  | nil => intro acc; simp
  | cons d T ih =>
    intro acc
    have hd : d < 10 := h d (by simp)
    have hT : ∀ x ∈ T, x < 10 := fun x hx => h x (by simp [hx])
    rw [List.map_cons, List.reverse_cons, List.foldl_append, ih hT acc]
    simp only [List.foldl_cons, List.foldl_nil, charToDigit_digitToChar d hd,
      Nat.ofDigits_cons, List.length_cons]
    ring

theorem digitsVal_natToDigitsL (n : Nat) : digitsVal (natToDigitsL n) = n := by
  by_cases h : n = 0
  · subst h; rfl
  · rw [natToDigitsL_eq_digits, if_neg h]
    unfold digitsVal
    rw [digitsVal_rev_map _ (fun d hd => Nat.digits_lt_base (by norm_num) hd) 0]
    simp [Nat.ofDigits_digits]

theorem natToDigitsL_ne_nil (n : Nat) : natToDigitsL n ≠ [] := by
  rw [natToDigitsL_eq_digits]
  by_cases h : n = 0
  · simp [h]
  · rw [if_neg h]
    simp [Nat.digits_ne_nil_iff_ne_zero.mpr h]

theorem mem_natToDigitsL_isDigit {n : Nat} {c : Char} (hc : c ∈ natToDigitsL n) :
    c.isDigit = true := by
  rw [natToDigitsL_eq_digits] at hc
  by_cases h : n = 0
  · rw [if_pos h] at hc
    simp only [List.mem_singleton] at hc
    subst hc; decide
  · rw [if_neg h, List.mem_reverse] at hc
    obtain ⟨d, hd, rfl⟩ := List.mem_map.mp hc
    exact digitToChar_isDigit d (Nat.digits_lt_base (by norm_num) hd)

theorem digits_length_le_of_lt (k : Nat) : ∀ m : Nat, m < 10 ^ k → (Nat.digits 10 m).length ≤ k := by
  induction k with
  | zero =>
    intro m hm
    have : m = 0 := Nat.lt_one_iff.mp (by simpa using hm)
    subst this; simp
  | succ k ih =>
    intro m hm
    by_cases h : m = 0
    · simp [h]
    · rw [Nat.digits_def' (by norm_num : (1:ℕ) < 10) (Nat.pos_of_ne_zero h)]
      simp only [List.length_cons]
      have hdiv : m / 10 < 10 ^ k := by
        rw [Nat.div_lt_iff_lt_mul (by norm_num : (0:ℕ) < 10)]
        calc m < 10 ^ (k + 1) := hm
        _ = 10 ^ k * 10 := by ring
      exact Nat.succ_le_succ (ih _ hdiv)

theorem natToDigitsL_length_le {m k : Nat} (hm : m < 10 ^ k) (hk : 1 ≤ k) :
    (natToDigitsL m).length ≤ k := by
  rw [natToDigitsL_eq_digits]
  by_cases h : m = 0
  · simp [h]; exact hk
  · rw [if_neg h]
    simp only [List.length_reverse, List.length_map]
    exact digits_length_le_of_lt k m hm

theorem digitsVal_replicate_zero (j : Nat) (cs : List Char) :
    digitsVal (List.replicate j '0' ++ cs) = digitsVal cs := by
  unfold digitsVal
  rw [List.foldl_append]
  have : ∀ i : Nat, List.foldl (fun a c => 10 * a + charToDigit c) 0 (List.replicate i '0') = 0 := by
    intro i
    induction i with
    | zero => rfl
    | succ i ih => simpa [List.replicate_succ, charToDigit] using ih
  rw [this]

theorem natToDigitsL_getLast {m : Nat} (hm : m ≠ 0) :
    (natToDigitsL m).getLast? = some (digitToChar (m % 10)) := by
  rw [natToDigitsL_eq_digits]
  rw [if_neg hm, List.getLast?_reverse, List.head?_map,
    Nat.digits_def' (by norm_num : (1:ℕ) < 10) (Nat.pos_of_ne_zero hm)]
  rfl

-- ---------------------------------------------------------------------------
-- Helper lemmas: canonical decimals, rendering and the parse round trip.
-- ---------------------------------------------------------------------------

theorem canonAux_spec (neg : Bool) (k : Nat) : ∀ m : Nat,
    ((canonAux neg m k).k = 0 ∨ (canonAux neg m k).m % 10 ≠ 0) ∧
    ((canonAux neg m k).m = 0 → (canonAux neg m k).neg = false ∧ (canonAux neg m k).k = 0) := by
  induction k with
  | zero =>
    intro m
    by_cases h : m = 0 <;> simp [canonAux, h]
  | succ k ih =>
    intro m
    by_cases h : m % 10 = 0
    · simp only [canonAux, h, if_true]
      exact ih (m / 10)
    · simp only [canonAux, h, if_false]
      refine ⟨Or.inr h, fun hm => absurd (by simp [hm]) h⟩

theorem canonDec_fixed {c : Dec} (hk : c.k = 0 ∨ c.m % 10 ≠ 0)
    (hm : c.m = 0 → c.neg = false ∧ c.k = 0) : canonDec c = c := by
  obtain ⟨neg, m, k⟩ := c
  cases k with
  | zero =>
    simp only [canonDec, canonAux]
    by_cases h : m = 0
    · rw [if_pos h]
      have h1 := (hm h).1
      simp only at h1
      rw [h1, h]
    · rw [if_neg h]
  | succ k =>
    have hne : m % 10 ≠ 0 := by
      rcases hk with h | h
      · exact absurd h (by simp)
      · exact h
    simp [canonDec, canonAux, hne]

theorem canonDec_idem (d : Dec) : canonDec (canonDec d) = canonDec d :=
  canonDec_fixed (canonAux_spec d.neg d.k d.m).1 (canonAux_spec d.neg d.k d.m).2

theorem applyExp_zero (d : Dec) : applyExp d 0 = d := by
  simp [applyExp]

theorem parseExp_M : parseExp ['M'] = 0 := by decide

theorem jsParseCore_digits_M (sg : Bool) (m : Nat) :
    jsParseCore sg (natToDigitsL m ++ ['M']) = some ⟨sg, m, 0⟩ := by
  have hall : ∀ c ∈ natToDigitsL m, Char.isDigit c = true :=
    fun c hc => mem_natToDigitsL_isDigit hc
  unfold jsParseCore
  simp only [takeWhile_append_all Char.isDigit (['M'] : List Char) hall,
    dropWhile_append_all Char.isDigit (['M'] : List Char) hall,
    show (List.takeWhile Char.isDigit ['M']) = [] from by decide,
    show (List.dropWhile Char.isDigit ['M']) = ['M'] from by decide,
    List.append_nil, List.head?_cons,
    show (some ('M' : Char) = some '.') = False from by simp, if_false]
  rw [if_neg (by simp [natToDigitsL_ne_nil])]
  rw [parseExp_M, applyExp_zero]
  norm_num [digitsVal_natToDigitsL, show digitsVal ([] : List Char) = 0 from rfl]

theorem jsParseCore_frac (sg : Bool) (m k : Nat) (hk : k ≠ 0) :
    jsParseCore sg ((natToDigitsL (m / 10 ^ k) ++
      ('.' :: (List.replicate (k - (natToDigitsL (m % 10 ^ k)).length) '0' ++
        natToDigitsL (m % 10 ^ k)))) ++ ['M'])
      = some ⟨sg, m, k⟩ := by
  have hallI : ∀ c ∈ natToDigitsL (m / 10 ^ k), Char.isDigit c = true :=
    fun c hc => mem_natToDigitsL_isDigit hc
  have hallF : ∀ c ∈ (List.replicate (k - (natToDigitsL (m % 10 ^ k)).length) '0' ++
      natToDigitsL (m % 10 ^ k)), Char.isDigit c = true := by
    intro c hc
    rcases List.mem_append.mp hc with h | h
    · have hc0 : c = '0' := List.eq_of_mem_replicate h
      subst hc0; decide
    · exact mem_natToDigitsL_isDigit h
  have hlen : (List.replicate (k - (natToDigitsL (m % 10 ^ k)).length) '0' ++
      natToDigitsL (m % 10 ^ k)).length = k := by
    have hF : m % 10 ^ k < 10 ^ k := Nat.mod_lt _ (by positivity)
    have hle : (natToDigitsL (m % 10 ^ k)).length ≤ k :=
      natToDigitsL_length_le hF (Nat.one_le_iff_ne_zero.mpr hk)
    simp only [List.length_append, List.length_replicate]
    omega
  have hvalF : digitsVal (List.replicate (k - (natToDigitsL (m % 10 ^ k)).length) '0' ++
      natToDigitsL (m % 10 ^ k)) = m % 10 ^ k := by
    rw [digitsVal_replicate_zero, digitsVal_natToDigitsL]
  have hassoc : (natToDigitsL (m / 10 ^ k) ++
      ('.' :: (List.replicate (k - (natToDigitsL (m % 10 ^ k)).length) '0' ++
        natToDigitsL (m % 10 ^ k)))) ++ ['M']
      = natToDigitsL (m / 10 ^ k) ++
      ('.' :: ((List.replicate (k - (natToDigitsL (m % 10 ^ k)).length) '0' ++
        natToDigitsL (m % 10 ^ k)) ++ ['M'])) := by
    simp
  rw [hassoc]
  unfold jsParseCore
  simp only [takeWhile_append_all Char.isDigit _ hallI,
    dropWhile_append_all Char.isDigit _ hallI,
    show ∀ X : List Char, List.takeWhile Char.isDigit ('.' :: X) = [] from
      fun X => by simp [List.takeWhile_cons],
    show ∀ X : List Char, List.dropWhile Char.isDigit ('.' :: X) = '.' :: X from
      fun X => by simp [List.dropWhile_cons],
    List.append_nil, List.head?_cons, List.tail_cons, if_true]
  simp only [takeWhile_append_all Char.isDigit (['M'] : List Char) hallF,
    dropWhile_append_all Char.isDigit (['M'] : List Char) hallF,
    show (List.takeWhile Char.isDigit ['M']) = [] from by decide,
    show (List.dropWhile Char.isDigit ['M']) = ['M'] from by decide,
    List.append_nil]
  rw [if_neg (by simp [natToDigitsL_ne_nil])]
  rw [parseExp_M, applyExp_zero, hlen, hvalF, digitsVal_natToDigitsL]
  have : m / 10 ^ k * 10 ^ k + m % 10 ^ k = m := by
    rw [Nat.mul_comm]
    exact Nat.div_add_mod m (10 ^ k)
  rw [this]

theorem decRender_ne_nil (c : Dec) : decRender c ≠ [] := by
  intro hcontra
  by_cases hk : c.k = 0
  · simp only [decRender, hk, if_true, List.append_eq_nil] at hcontra
    exact natToDigitsL_ne_nil _ hcontra.2
  · simp only [decRender, hk, if_false, List.append_assoc, List.append_eq_nil] at hcontra
    exact absurd hcontra.2.2 (by simp)

theorem decRender_head (c : Dec) {c0 : Char} (h : (decRender c).head? = some c0) :
    c0 = '-' ∨ Char.isDigit c0 = true := by
  obtain ⟨neg, m, k⟩ := c
  by_cases hs : neg = true ∧ m ≠ 0
  · have hex : ∃ t, decRender ⟨neg, m, k⟩ = '-' :: t := by
      by_cases hk0 : k = 0
      · exact ⟨natToDigitsL m, by simp [decRender, hk0, hs.1, hs.2]⟩
      · exact ⟨natToDigitsL (m / 10 ^ k) ++
          ('.' :: (List.replicate (k - (natToDigitsL (m % 10 ^ k)).length) '0' ++
            natToDigitsL (m % 10 ^ k))), by simp [decRender, hk0, hs.1, hs.2]⟩
    obtain ⟨t, ht⟩ := hex
    rw [ht] at h
    simp only [List.head?_cons, Option.some.injEq] at h
    exact Or.inl h.symm
  · by_cases hk0 : k = 0
    · rw [show decRender ⟨neg, m, k⟩ = natToDigitsL m from by simp [decRender, hk0, hs]] at h
      have hc0mem : c0 ∈ natToDigitsL m := List.mem_of_mem_head? (by simp [h])
      exact Or.inr (mem_natToDigitsL_isDigit hc0mem)
    · rw [show decRender ⟨neg, m, k⟩ = natToDigitsL (m / 10 ^ k) ++
          ('.' :: (List.replicate (k - (natToDigitsL (m % 10 ^ k)).length) '0' ++
            natToDigitsL (m % 10 ^ k))) from by simp [decRender, hk0, hs]] at h
      rw [List.head?_append_of_ne_nil _ (natToDigitsL_ne_nil _)] at h
      have hc0mem : c0 ∈ natToDigitsL (m / 10 ^ k) := List.mem_of_mem_head? (by simp [h])
      exact Or.inr (mem_natToDigitsL_isDigit hc0mem)

theorem parseSign_of_head_digit {l : List Char} {c0 : Char}
    (hc0 : l.head? = some c0) (hd : Char.isDigit c0 = true) : parseSign l = (false, l) := by
  have hex := isDigit_excl c0 hd
  have h1 : ¬(l.head? = some '-') := by
    rw [hc0]; intro h; exact hex.2.1 (by injection h)
  have h2 : ¬(l.head? = some '+') := by
    rw [hc0]; intro h; exact hex.2.2.1 (by injection h)
  unfold parseSign
  rw [if_neg h1, if_neg h2]

theorem jsParseFloat_of_digit_head {l : List Char} {c0 : Char}
    (hc0 : l.head? = some c0) (hd : Char.isDigit c0 = true) :
    jsParseFloatL l = jsParseCore false l := by
  have hws : l.dropWhile isJsWs = l := by
    apply dropWhile_eq_self_of_head
    intro c hc
    have : c = c0 := by rw [hc] at hc0; injection hc0
    subst this
    exact isDigit_not_ws _ hd
  simp only [jsParseFloatL, hws, parseSign_of_head_digit hc0 hd]

theorem jsParseFloat_of_dash_head (l : List Char) :
    jsParseFloatL ('-' :: l) = jsParseCore true l := by
  simp only [jsParseFloatL,
    show List.dropWhile isJsWs ('-' :: l) = '-' :: l from by
      simp [List.dropWhile_cons, show isJsWs '-' = false from by decide],
    show parseSign ('-' :: l) = (true, l) from by simp [parseSign]]

theorem head_digit_of_digits_append (a : Nat) (rest : List Char) :
    ∃ c0, (natToDigitsL a ++ rest).head? = some c0 ∧ Char.isDigit c0 = true := by
  cases hn : natToDigitsL a with
  | nil => exact absurd hn (natToDigitsL_ne_nil a)
  | cons x xs =>
    refine ⟨x, by simp [hn], ?_⟩
    exact mem_natToDigitsL_isDigit (by rw [hn]; simp)

theorem jsParseFloat_render {c : Dec} (hm : c.m = 0 → c.neg = false ∧ c.k = 0) :
    jsParseFloatL (decRender c ++ ['M']) = some c := by
  obtain ⟨neg, m, k⟩ := c
  by_cases hs : neg = true ∧ m ≠ 0
  · by_cases hk0 : k = 0
    · have hr : decRender ⟨neg, m, k⟩ ++ ['M'] = '-' :: (natToDigitsL m ++ ['M']) := by
        simp [decRender, hk0, hs.1, hs.2]
      rw [hr, jsParseFloat_of_dash_head, jsParseCore_digits_M, hs.1, hk0]
    · have hr : decRender ⟨neg, m, k⟩ ++ ['M'] = '-' :: ((natToDigitsL (m / 10 ^ k) ++
          ('.' :: (List.replicate (k - (natToDigitsL (m % 10 ^ k)).length) '0' ++
            natToDigitsL (m % 10 ^ k)))) ++ ['M']) := by
        simp [decRender, hk0, hs.1, hs.2]
      rw [hr, jsParseFloat_of_dash_head, jsParseCore_frac _ _ _ hk0, hs.1]
  · have hnegf : neg = false := by
      by_cases hn : neg = true
      · have hm0 : m = 0 := by
          by_contra hmm0
          exact hs ⟨hn, hmm0⟩
        have hres := (hm hm0).1
        simp only at hres
        rw [hn] at hres
        exact absurd hres (by decide)
      · exact Bool.eq_false_iff.mpr hn
    by_cases hk0 : k = 0
    · have hr : decRender ⟨neg, m, k⟩ ++ ['M'] = natToDigitsL m ++ ['M'] := by
        simp [decRender, hk0, hs]
      obtain ⟨c0, hc0, hd0⟩ := head_digit_of_digits_append m ['M']
      rw [hr, jsParseFloat_of_digit_head hc0 hd0, jsParseCore_digits_M, hnegf, hk0]
    · have hr : decRender ⟨neg, m, k⟩ ++ ['M'] = (natToDigitsL (m / 10 ^ k) ++
          ('.' :: (List.replicate (k - (natToDigitsL (m % 10 ^ k)).length) '0' ++
            natToDigitsL (m % 10 ^ k)))) ++ ['M'] := by
        simp [decRender, hk0, hs]
      obtain ⟨c0, hc0, hd0⟩ := head_digit_of_digits_append (m / 10 ^ k)
        (('.' :: (List.replicate (k - (natToDigitsL (m % 10 ^ k)).length) '0' ++
          natToDigitsL (m % 10 ^ k))) ++ ['M'])
      have hre : (natToDigitsL (m / 10 ^ k) ++
          ('.' :: (List.replicate (k - (natToDigitsL (m % 10 ^ k)).length) '0' ++
            natToDigitsL (m % 10 ^ k)))) ++ ['M']
          = natToDigitsL (m / 10 ^ k) ++
          (('.' :: (List.replicate (k - (natToDigitsL (m % 10 ^ k)).length) '0' ++
            natToDigitsL (m % 10 ^ k))) ++ ['M']) := by
        simp
      rw [hr, jsParseFloat_of_digit_head (by rw [hre]; exact hc0) hd0,
        jsParseCore_frac _ _ _ hk0, hnegf]

theorem jsStripDotZeros_render {c : Dec} (hk : c.k = 0 ∨ c.m % 10 ≠ 0) :
    jsStripDotZeros (decRender c) = decRender c := by
  obtain ⟨neg, m, k⟩ := c
  by_cases hk0 : k = 0
  · have hdot : ('.' : Char) ∉ decRender ⟨neg, m, k⟩ := by
      intro hmem
      rw [show decRender ⟨neg, m, k⟩ =
        (if (neg = true) ∧ m ≠ 0 then (['-'] : List Char) else []) ++ natToDigitsL m from by
          simp [decRender, hk0]] at hmem
      rcases List.mem_append.mp hmem with h | h
      · revert h
        by_cases hc : (neg = true) ∧ m ≠ 0 <;> simp [hc]
      · exact (isDigit_excl _ (mem_natToDigitsL_isDigit h)).1 rfl
    unfold jsStripDotZeros
    by_cases hcond : ((decRender ⟨neg, m, k⟩).reverse.takeWhile (fun c => c = '0') ≠ [] ∧
        ((decRender ⟨neg, m, k⟩).reverse.drop
          ((decRender ⟨neg, m, k⟩).reverse.takeWhile (fun c => c = '0')).length).head? = some '.')
    · exfalso
      have hmem : ('.' : Char) ∈ (decRender ⟨neg, m, k⟩).reverse.drop
          ((decRender ⟨neg, m, k⟩).reverse.takeWhile (fun c => c = '0')).length :=
        List.mem_of_mem_head? (by simp [hcond.2])
      have := List.drop_subset _ _ hmem
      exact hdot (by simpa [List.mem_reverse] using this)
    · rw [if_neg hcond]
  · have hmod : m % 10 ≠ 0 := by
      rcases hk with h | h
      · exact absurd h (by simpa using hk0)
      · exact h
    have hF : (m % 10 ^ k) % 10 = m % 10 := Nat.mod_mod_of_dvd m (dvd_pow_self 10 hk0)
    have hFne : m % 10 ^ k ≠ 0 := fun h0 => hmod (by rw [← hF, h0])
    have hlast : (decRender ⟨neg, m, k⟩).getLast? = some (digitToChar (m % 10)) := by
      rw [show decRender ⟨neg, m, k⟩ =
        ((if (neg = true) ∧ m ≠ 0 then (['-'] : List Char) else []) ++ natToDigitsL (m / 10 ^ k)) ++
          (('.' :: List.replicate (k - (natToDigitsL (m % 10 ^ k)).length) '0') ++
            natToDigitsL (m % 10 ^ k)) from by simp [decRender, hk0]]
      rw [List.getLast?_append_of_ne_nil _ (by simp [natToDigitsL_ne_nil] :
        (('.' :: List.replicate (k - (natToDigitsL (m % 10 ^ k)).length) '0') ++
          natToDigitsL (m % 10 ^ k)) ≠ [])]
      rw [List.getLast?_append_of_ne_nil _ (natToDigitsL_ne_nil _)]
      rw [natToDigitsL_getLast hFne, hF]
    have hhead : (decRender ⟨neg, m, k⟩).reverse.head? = some (digitToChar (m % 10)) := by
      rw [List.head?_reverse]; exact hlast
    have htw : (decRender ⟨neg, m, k⟩).reverse.takeWhile (fun c => c = '0') = [] := by
      apply takeWhile_eq_nil_of_head
      intro c hc
      have : c = digitToChar (m % 10) := by rw [hc] at hhead; injection hhead
      subst this
      simp [digitToChar_ne_zeroChar (m % 10) (Nat.mod_lt _ (by norm_num)) hmod]
    unfold jsStripDotZeros
    simp [htw]

theorem jsTrim_renderM (c : Dec) : jsTrim (decRender c ++ ['M']) = decRender c ++ ['M'] := by
  apply jsTrim_eq_self
  · intro c0 hc0
    rw [List.head?_append_of_ne_nil _ (decRender_ne_nil c)] at hc0
    rcases decRender_head c hc0 with rfl | hd
    · decide
    · exact isDigit_not_ws _ hd
  · intro c0 hc0
    rw [List.getLast?_concat] at hc0
    have : c0 = 'M' := by injection hc0 with h; exact h.symm
    subst this
    decide

theorem termLabelFrom_of_some {l : List Char} {d : Dec} (h : jsParseFloatL (jsTrim l) = some d) :
    P1.termLabelFrom l = decRender (canonDec d) ++ ['M'] := by
  simp only [P1.termLabelFrom, jsNumToString, h]
  rw [@jsStripDotZeros_render (canonDec d) ((canonAux_spec d.neg d.k d.m).1)]

theorem termLabelFrom_of_none {l : List Char} (h : jsParseFloatL (jsTrim l) = none) :
    P1.termLabelFrom l = jsTrim l := by
  simp only [P1.termLabelFrom, h]

theorem termLabelFrom_idem (l : List Char) :
    P1.termLabelFrom (P1.termLabelFrom l) = P1.termLabelFrom l := by
  cases h : jsParseFloatL (jsTrim l) with
  | none =>
    rw [termLabelFrom_of_none h]
    rw [termLabelFrom_of_none (by rw [jsTrim_idem, h])]
    rw [jsTrim_idem]
  | some d =>
    rw [termLabelFrom_of_some h]
    have hparse : jsParseFloatL (jsTrim (decRender (canonDec d) ++ ['M'])) = some (canonDec d) := by
      rw [jsTrim_renderM]
      exact @jsParseFloat_render (canonDec d) ((canonAux_spec d.neg d.k d.m).2)
    rw [termLabelFrom_of_some hparse]
    rw [canonDec_idem]

theorem monthDigits_some {s ds : List Char} (h : ServerJs.monthDigits s = some ds) :
    ds = s.takeWhile Char.isDigit ∧ ds ≠ [] := by
  unfold ServerJs.monthDigits at h
  by_cases h1 : s.takeWhile Char.isDigit = []
  · rw [if_pos h1] at h; exact absurd h (by simp)
  · rw [if_neg h1] at h
    by_cases h2 : (((s.dropWhile Char.isDigit).dropWhile isJsWs).take 5).map Char.toLower
        = ("month").data
    · rw [if_pos h2] at h
      have hds : s.takeWhile Char.isDigit = ds := by injection h
      exact ⟨hds.symm, hds ▸ h1⟩
    · rw [if_neg h2] at h; exact absurd h (by simp)

theorem monthDigits_digitsM {ds : List Char} (hne : ds ≠ [])
    (hall : ∀ c ∈ ds, Char.isDigit c = true) :
    ServerJs.monthDigits (ds ++ ['M']) = none := by
  unfold ServerJs.monthDigits
  rw [takeWhile_append_all Char.isDigit _ hall, dropWhile_append_all Char.isDigit _ hall]
  simp only [show (List.takeWhile Char.isDigit ['M']) = [] from by decide,
    show (List.dropWhile Char.isDigit ['M']) = ['M'] from by decide, List.append_nil]
  rw [if_neg hne]
  rfl

theorem jsTrim_digitsM {ds : List Char} (hne : ds ≠ [])
    (hall : ∀ c ∈ ds, Char.isDigit c = true) :
    jsTrim (ds ++ ['M']) = ds ++ ['M'] := by
  apply jsTrim_eq_self
  · intro c0 hc0
    rw [List.head?_append_of_ne_nil _ hne] at hc0
    exact isDigit_not_ws _ (hall c0 (List.mem_of_mem_head? (by simp [hc0])))
  · intro c0 hc0
    rw [List.getLast?_concat] at hc0
    have : c0 = 'M' := by injection hc0 with h; exact h.symm
    subst this
    decide

theorem formatTermLabel_of_none {l : List Char} (h0 : l ≠ [])
    (h : ServerJs.monthDigits (jsTrim l) = none) :
    ServerJs.formatTermLabel l = jsTrim l := by
  simp only [ServerJs.formatTermLabel, if_neg h0, h]

theorem formatTermLabel_of_some {l ds : List Char} (h0 : l ≠ [])
    (h : ServerJs.monthDigits (jsTrim l) = some ds) :
    ServerJs.formatTermLabel l = ds ++ ['M'] := by
  simp only [ServerJs.formatTermLabel, if_neg h0, h]

theorem formatTermLabel_idem (l : List Char) :
    ServerJs.formatTermLabel (ServerJs.formatTermLabel l) = ServerJs.formatTermLabel l := by
  by_cases h0 : l = []
  · simp [ServerJs.formatTermLabel, h0]
  · cases hm : ServerJs.monthDigits (jsTrim l) with
    | none =>
      rw [formatTermLabel_of_none h0 hm]
      by_cases ht : jsTrim l = []
      · rw [ht]; rfl
      · rw [formatTermLabel_of_none ht (by rw [jsTrim_idem]; exact hm)]
        rw [jsTrim_idem]
    | some ds =>
      rw [formatTermLabel_of_some h0 hm]
      obtain ⟨hds, hdsne⟩ := monthDigits_some hm
      have hall : ∀ c ∈ ds, Char.isDigit c = true := by
        intro c hc
        rw [hds] at hc
        exact List.mem_takeWhile_imp hc
      have hne2 : ds ++ ['M'] ≠ [] := by simp
      rw [formatTermLabel_of_none hne2
        (by rw [jsTrim_digitsM hdsne hall]; exact monthDigits_digitsM hdsne hall)]
      rw [jsTrim_digitsM hdsne hall]

-- ---------------------------------------------------------------------------
-- Helper lemmas: association lists.
-- ---------------------------------------------------------------------------

theorem lookupA_mapUpdateA_self {α β : Type} [DecidableEq α] (m : List (α × β)) (k : α)
    (f : β → β) : lookupA (mapUpdateA m k f) k = (lookupA m k).map f := by
  induction m with
  | nil => rfl
  | cons kv t ih =>
    simp only [mapUpdateA, List.map_cons]
    simp only [mapUpdateA] at ih
    by_cases h : kv.1 = k
    · simp [lookupA, h]
    · simp only [lookupA, if_neg h, h, if_false]
      exact ih

theorem lookupA_mapUpdateA_ne {α β : Type} [DecidableEq α] (m : List (α × β)) {k k2 : α}
    (f : β → β) (h : k2 ≠ k) : lookupA (mapUpdateA m k f) k2 = lookupA m k2 := by
  induction m with
  | nil => rfl
  | cons kv t ih =>
    simp only [mapUpdateA, List.map_cons]
    simp only [mapUpdateA] at ih
    by_cases h1 : kv.1 = k
    · have h2 : ¬(kv.1 = k2) := fun hx => h (by rw [← hx, h1])
      rw [if_pos h1]
      simp only [lookupA, if_neg h2]
      exact ih
    · rw [if_neg h1]
      simp only [lookupA]
      by_cases h2 : kv.1 = k2
      · simp [h2]
      · simp only [if_neg h2]
        exact ih

theorem lookupA_append {α β : Type} [DecidableEq α] (m1 m2 : List (α × β)) (key : α) :
    lookupA (m1 ++ m2) key =
      (match lookupA m1 key with
       | some v => some v
       | none => lookupA m2 key) := by
  induction m1 with
  | nil => simp [lookupA]
  | cons kv t ih =>
    by_cases h : kv.1 = key
    · simp [lookupA, h]
    · simp only [List.cons_append, lookupA, if_neg h]
      exact ih

theorem lookupA_none_of_not_contains {α β : Type} [DecidableEq α] {m : List (α × β)} {k : α}
    (h : ¬(containsKeyA m k = true)) : lookupA m k = none := by
  have h2 : ¬((lookupA m k).isSome = true) := by simpa [containsKeyA] using h
  exact Option.not_isSome_iff_eq_none.mp h2

theorem lookupA_some_of_contains {α β : Type} [DecidableEq α] {m : List (α × β)} {k : α}
    (h : containsKeyA m k = true) : ∃ v, lookupA m k = some v := by
  simp only [containsKeyA] at h
  exact Option.isSome_iff_exists.mp h

theorem lookupA_setPropA_self {α β : Type} [DecidableEq α] (m : List (α × β)) (k : α) (v : β) :
    lookupA (setPropA m k v) k = some v := by
  unfold setPropA
  by_cases h : containsKeyA m k
  · rw [if_pos h, lookupA_mapUpdateA_self]
    obtain ⟨w, hw⟩ := lookupA_some_of_contains h
    rw [hw]
    rfl
  · rw [if_neg h, lookupA_append, lookupA_none_of_not_contains h]
    simp [lookupA]

theorem lookupA_setPropA_ne {α β : Type} [DecidableEq α] (m : List (α × β)) {k k2 : α} (v : β)
    (h : k2 ≠ k) : lookupA (setPropA m k v) k2 = lookupA m k2 := by
  unfold setPropA
  by_cases hc : containsKeyA m k
  · rw [if_pos hc, lookupA_mapUpdateA_ne _ _ h]
  · rw [if_neg hc, lookupA_append]
    cases hl : lookupA m k2 with
    | some w => rfl
    | none => simp [lookupA, if_neg (fun hx : k = k2 => h hx.symm)]

theorem containsKeyA_mapUpdateA {α β : Type} [DecidableEq α] (m : List (α × β)) (k k2 : α)
    (f : β → β) : containsKeyA (mapUpdateA m k f) k2 = containsKeyA m k2 := by
  unfold containsKeyA
  by_cases h : k2 = k
  · subst h
    rw [lookupA_mapUpdateA_self]
    exact Option.isSome_map'
  · rw [lookupA_mapUpdateA_ne _ _ h]

theorem containsKeyA_append_single {α β : Type} [DecidableEq α] (m : List (α × β)) (k k2 : α)
    (v : β) : containsKeyA (m ++ [(k, v)]) k2 = (containsKeyA m k2 || decide (k = k2)) := by
  unfold containsKeyA
  rw [lookupA_append]
  cases hl : lookupA m k2 with
  | some w => simp
  | none =>
    simp only [Option.isSome_none, Bool.false_or]
    by_cases h : k = k2
    · simp [lookupA, h]
    · simp [lookupA, h]

-- ---------------------------------------------------------------------------
-- Helper lemmas: the pivot loop of `buildPromoBlock`.
-- ---------------------------------------------------------------------------

namespace ServerJs

theorem promoStep_invalid {idx : PromoIdx} {st : PromoState} {row : Row}
    (h : ¬validRow idx row) : promoStep idx st row = st := by
  unfold promoStep
  rw [if_pos]
  unfold validRow at h
  by_contra hcon
  push_neg at hcon
  exact h ⟨hcon.1, hcon.2.1, hcon.2.2⟩

theorem promoStep_valid_fields {idx : PromoIdx} {st : PromoState} {row : Row}
    (h : validRow idx row) :
    promoStep idx st row = ⟨setAddA st.termSet (formatTermLabel (getCell row idx.termIdx)),
      mapUpdateA
        (if containsKeyA st.tierMap (formatTierLabel (getCell row idx.tierIdx)) then st.tierMap
         else st.tierMap ++ [(formatTierLabel (getCell row idx.tierIdx), [])])
        (formatTierLabel (getCell row idx.tierIdx))
        (fun inner => setPropA inner (formatTermLabel (getCell row idx.termIdx))
          (jsTrim (getCell row idx.rateIdx))),
      mapUpdateA
        (if containsKeyA st.tierMap (formatTierLabel (getCell row idx.tierIdx)) then st.tierMeta
         else st.tierMeta ++ [(formatTierLabel (getCell row idx.tierIdx), ⟨[], [], []⟩)])
        (formatTierLabel (getCell row idx.tierIdx))
        (metaUpdate idx row)⟩ := by
  obtain ⟨h1, h2, h3⟩ := h
  unfold promoStep
  rw [if_neg (by simp [h1, h2, h3])]

theorem rateAt_promoStep_self (idx : PromoIdx) (st : PromoState) (row : Row)
    (h : validRow idx row) :
    rateAt (promoStep idx st row) (formatTierLabel (getCell row idx.tierIdx))
      (formatTermLabel (getCell row idx.termIdx)) = some (jsTrim (getCell row idx.rateIdx)) := by
  rw [promoStep_valid_fields h]
  unfold rateAt
  simp only
  by_cases hk : containsKeyA st.tierMap (formatTierLabel (getCell row idx.tierIdx))
  · rw [if_pos hk, lookupA_mapUpdateA_self]
    obtain ⟨inner, hin⟩ := lookupA_some_of_contains hk
    rw [hin]
    simp [lookupA_setPropA_self]
  · rw [if_neg hk, lookupA_mapUpdateA_self, lookupA_append,
      lookupA_none_of_not_contains hk]
    simp [lookupA, lookupA_setPropA_self]

theorem rateAt_promoStep_preserve (idx : PromoIdx) (st : PromoState) (row : Row)
    {t m v : Cell} (hprev : rateAt st t m = some v)
    (hno : validRow idx row →
      ¬(formatTierLabel (getCell row idx.tierIdx) = t ∧
        formatTermLabel (getCell row idx.termIdx) = m)) :
    rateAt (promoStep idx st row) t m = some v := by
  by_cases hv : validRow idx row
  · rw [promoStep_valid_fields hv]
    unfold rateAt at hprev ⊢
    simp only
    obtain ⟨inner, hin, hv2⟩ : ∃ inner, lookupA st.tierMap t = some inner ∧
        lookupA inner m = some v := by
      cases hl : lookupA st.tierMap t with
      | none => rw [hl] at hprev; simp at hprev
      | some i => rw [hl] at hprev; exact ⟨i, rfl, by simpa using hprev⟩
    by_cases ht : formatTierLabel (getCell row idx.tierIdx) = t
    · have hm2 : formatTermLabel (getCell row idx.termIdx) ≠ m :=
        fun hmm => hno hv ⟨ht, hmm⟩
      rw [ht]
      have hk : containsKeyA st.tierMap t = true := by simp [containsKeyA, hin]
      rw [if_pos hk, lookupA_mapUpdateA_self, hin]
      simp only [Option.map_some', Option.some_bind]
      rw [lookupA_setPropA_ne _ _ (fun hx => hm2 hx.symm)]
      exact hv2
    · have htne : t ≠ formatTierLabel (getCell row idx.tierIdx) := fun hx => ht hx.symm
      rw [lookupA_mapUpdateA_ne _ _ htne]
      by_cases hk : containsKeyA st.tierMap (formatTierLabel (getCell row idx.tierIdx))
      · rw [if_pos hk, hin]
        simpa using hv2
      · rw [if_neg hk, lookupA_append, hin]
        simpa using hv2
  · rw [promoStep_invalid hv]
    exact hprev

theorem rateAt_foldl_preserve (idx : PromoIdx) (l2 : Sheet) :
    ∀ (st : PromoState) (t m v : Cell), rateAt st t m = some v →
    (∀ r ∈ l2, validRow idx r →
      ¬(formatTierLabel (getCell r idx.tierIdx) = t ∧
        formatTermLabel (getCell r idx.termIdx) = m)) →
    rateAt (l2.foldl (promoStep idx) st) t m = some v := by
  induction l2 with
  | nil => intro st t m v hprev _; exact hprev
  | cons r rest ih =>
    intro st t m v hprev hno
    simp only [List.foldl_cons]
    exact ih _ _ _ _
      (rateAt_promoStep_preserve idx st r hprev (hno r (by simp)))
      (fun r2 hr2 => hno r2 (by simp [hr2]))

theorem buildPromoState_skip (idx : PromoIdx) (l1 : Sheet) (r : Row) (l2 : Sheet)
    (h : ¬validRow idx r) :
    buildPromoState idx (l1 ++ r :: l2) = buildPromoState idx (l1 ++ l2) := by
  unfold buildPromoState
  rw [List.foldl_append, List.foldl_append, List.foldl_cons, promoStep_invalid h]

end ServerJs

namespace ServerJs

theorem firstNETrim_append (xs ys : List Cell) :
    firstNETrim (xs ++ ys) = if firstNETrim xs = [] then firstNETrim ys else firstNETrim xs := by
  induction xs with
  | nil => simp [firstNETrim]
  | cons v t ih =>
    by_cases hv : jsTrim v = []
    · simp only [List.cons_append, firstNETrim, hv, ne_eq, not_true_eq_false, if_false,
        not_false_eq_true]
      simpa [firstNETrim, hv] using ih
    · simp [firstNETrim, hv]

theorem getCell_neg_one (row : Row) : getCell row (-1) = [] := by
  simp [getCell]

theorem field_update_spec (row : Row) (i : Int) (vals : List Cell) :
    (if i ≠ -1 ∧ getCell row i ≠ [] ∧ firstNETrim vals = [] then jsTrim (getCell row i)
     else firstNETrim vals)
      = firstNETrim (vals ++ [getCell row i]) := by
  rw [firstNETrim_append]
  by_cases hA : firstNETrim vals = []
  · rw [if_pos hA]
    by_cases hraw : getCell row i = []
    · rw [if_neg (by simp [hraw])]
      rw [hA]
      simp [firstNETrim, hraw, show jsTrim ([] : List Char) = [] from rfl]
    · have hi : i ≠ -1 := by
        intro hcon
        rw [hcon] at hraw
        exact hraw (getCell_neg_one row)
      rw [if_pos ⟨hi, hraw, hA⟩]
      simp only [firstNETrim]
      by_cases htr : jsTrim (getCell row i) = []
      · rw [if_neg (by simp [htr])]
        simpa [firstNETrim] using htr
      · rw [if_pos htr]
  · rw [if_neg (by simp [hA]), if_neg hA]

theorem metaUpdate_apply (idx : PromoIdx) (row : Row) (meta : MetaS) :
    metaUpdate idx row meta
    = ⟨if idx.dpIdx ≠ -1 ∧ getCell row idx.dpIdx ≠ [] ∧ meta.dp = [] then
          jsTrim (getCell row idx.dpIdx) else meta.dp,
       if idx.capIdx ≠ -1 ∧ getCell row idx.capIdx ≠ [] ∧ meta.cap = [] then
          jsTrim (getCell row idx.capIdx) else meta.cap,
       if idx.feeIdx ≠ -1 ∧ getCell row idx.feeIdx ≠ [] ∧ meta.fee = [] then
          jsTrim (getCell row idx.feeIdx) else meta.fee⟩ := by
  unfold metaUpdate
  by_cases c1 : idx.dpIdx ≠ -1 ∧ getCell row idx.dpIdx ≠ [] ∧ meta.dp = [] <;>
    by_cases c2 : idx.capIdx ≠ -1 ∧ getCell row idx.capIdx ≠ [] ∧ meta.cap = [] <;>
      by_cases c3 : idx.feeIdx ≠ -1 ∧ getCell row idx.feeIdx ≠ [] ∧ meta.fee = [] <;>
        simp [c1, c2, c3]

theorem metaSpec_step (idx : PromoIdx) (l : Sheet) (r : Row) (t0 : Cell)
    (hfilter : filterValidTier idx t0 (l ++ [r]) = filterValidTier idx t0 l ++ [r]) :
    (⟨if idx.dpIdx ≠ -1 ∧ getCell r idx.dpIdx ≠ [] ∧ (metaSpec idx l t0).dp = [] then
          jsTrim (getCell r idx.dpIdx) else (metaSpec idx l t0).dp,
       if idx.capIdx ≠ -1 ∧ getCell r idx.capIdx ≠ [] ∧ (metaSpec idx l t0).cap = [] then
          jsTrim (getCell r idx.capIdx) else (metaSpec idx l t0).cap,
       if idx.feeIdx ≠ -1 ∧ getCell r idx.feeIdx ≠ [] ∧ (metaSpec idx l t0).fee = [] then
          jsTrim (getCell r idx.feeIdx) else (metaSpec idx l t0).fee⟩ : MetaS)
    = metaSpec idx (l ++ [r]) t0 := by
  unfold metaSpec
  rw [hfilter]
  simp only [List.map_append, List.map_cons, List.map_nil, MetaS.mk.injEq]
  exact ⟨field_update_spec r idx.dpIdx _, field_update_spec r idx.capIdx _,
    field_update_spec r idx.feeIdx _⟩

theorem metaSpec_nil_of_filter_nil (idx : PromoIdx) (l : Sheet) (t0 : Cell)
    (hfl : filterValidTier idx t0 l = []) : metaSpec idx l t0 = ⟨[], [], []⟩ := by
  unfold metaSpec
  rw [hfl]
  rfl

theorem buildPromoState_meta (idx : PromoIdx) (rows : Sheet) :
    (∀ t, containsKeyA (buildPromoState idx rows).tierMap t
        = containsKeyA (buildPromoState idx rows).tierMeta t) ∧
    (∀ t, lookupA (buildPromoState idx rows).tierMeta t
        = if filterValidTier idx t rows = [] then none else some (metaSpec idx rows t)) := by
  induction rows using List.reverseRecOn with
  | nil =>
    constructor <;> intro t <;>
      simp [buildPromoState, lookupA, containsKeyA, filterValidTier]
  | append_singleton l r ih =>
    obtain ⟨ihk, ihm⟩ := ih
    have hfold : buildPromoState idx (l ++ [r]) = promoStep idx (buildPromoState idx l) r := by
      unfold buildPromoState
      rw [List.foldl_append]
      rfl
    by_cases hv : validRow idx r
    case neg =>
      have hfilter : ∀ t, filterValidTier idx t (l ++ [r]) = filterValidTier idx t l := by
        intro t
        unfold filterValidTier
        rw [List.filter_append]
        simp [hv]
      rw [hfold, promoStep_invalid hv]
      refine ⟨ihk, fun t => ?_⟩
      have hms : metaSpec idx (l ++ [r]) t = metaSpec idx l t := by
        unfold metaSpec
        rw [hfilter t]
      rw [hfilter t, hms]
      exact ihm t
    case pos =>
      rw [hfold, promoStep_valid_fields hv]
      constructor
      · intro t
        simp only
        by_cases hk : containsKeyA (buildPromoState idx l).tierMap
            (formatTierLabel (getCell r idx.tierIdx))
        · rw [if_pos hk, if_pos hk, containsKeyA_mapUpdateA, containsKeyA_mapUpdateA]
          exact ihk t
        · rw [if_neg hk, if_neg hk, containsKeyA_mapUpdateA, containsKeyA_mapUpdateA,
            containsKeyA_append_single, containsKeyA_append_single, ihk t]
      · intro t
        simp only
        by_cases ht : formatTierLabel (getCell r idx.tierIdx) = t
        · subst ht
          have hfilter : filterValidTier idx (formatTierLabel (getCell r idx.tierIdx)) (l ++ [r])
              = filterValidTier idx (formatTierLabel (getCell r idx.tierIdx)) l ++ [r] := by
            unfold filterValidTier
            rw [List.filter_append]
            simp [hv]
          by_cases hk : containsKeyA (buildPromoState idx l).tierMap
              (formatTierLabel (getCell r idx.tierIdx))
          · rw [if_pos hk, lookupA_mapUpdateA_self]
            have hkMeta : containsKeyA (buildPromoState idx l).tierMeta
                (formatTierLabel (getCell r idx.tierIdx)) = true := by
              rw [← ihk]
              exact hk
            obtain ⟨prev, hprev⟩ := lookupA_some_of_contains hkMeta
            have hspec := ihm (formatTierLabel (getCell r idx.tierIdx))
            rw [hprev] at hspec
            by_cases hfl : filterValidTier idx (formatTierLabel (getCell r idx.tierIdx)) l = []
            · rw [if_pos hfl] at hspec
              exact absurd hspec (by simp)
            · rw [if_neg hfl] at hspec
              have hprev2 : prev = metaSpec idx l (formatTierLabel (getCell r idx.tierIdx)) := by
                injection hspec
              rw [hprev, hprev2]
              simp only [Option.map_some']
              rw [if_neg (by rw [hfilter]; simp)]
              rw [metaUpdate_apply idx r, metaSpec_step idx l r _ hfilter]
          · rw [if_neg hk, lookupA_mapUpdateA_self, lookupA_append]
            have hkMeta : containsKeyA (buildPromoState idx l).tierMeta
                (formatTierLabel (getCell r idx.tierIdx)) = false := by
              rw [← ihk]
              simpa using hk
            rw [lookupA_none_of_not_contains (by simp [hkMeta])]
            have hfl : filterValidTier idx (formatTierLabel (getCell r idx.tierIdx)) l = [] := by
              by_contra hne
              have hsp := ihm (formatTierLabel (getCell r idx.tierIdx))
              rw [if_neg hne] at hsp
              have : containsKeyA (buildPromoState idx l).tierMeta
                  (formatTierLabel (getCell r idx.tierIdx)) = true := by
                simp [containsKeyA, hsp]
              rw [hkMeta] at this
              exact absurd this (by simp)
            show ((lookupA [((formatTierLabel (getCell r idx.tierIdx)), (⟨[], [], []⟩ : MetaS))]
              (formatTierLabel (getCell r idx.tierIdx))).map (metaUpdate idx r)) = _
            rw [show lookupA [((formatTierLabel (getCell r idx.tierIdx)), (⟨[], [], []⟩ : MetaS))]
              (formatTierLabel (getCell r idx.tierIdx)) = some (⟨[], [], []⟩ : MetaS) from by
                simp [lookupA]]
            simp only [Option.map_some']
            rw [if_neg (by rw [hfilter]; simp)]
            have hdefault : (⟨[], [], []⟩ : MetaS)
                = metaSpec idx l (formatTierLabel (getCell r idx.tierIdx)) :=
              (metaSpec_nil_of_filter_nil idx l _ hfl).symm
            rw [hdefault, metaUpdate_apply idx r, metaSpec_step idx l r _ hfilter]
        · have htne : t ≠ formatTierLabel (getCell r idx.tierIdx) := fun hx => ht hx.symm
          have hfilter : filterValidTier idx t (l ++ [r]) = filterValidTier idx t l := by
            unfold filterValidTier
            rw [List.filter_append]
            have hnot : ¬(validRow idx r ∧ formatTierLabel (getCell r idx.tierIdx) = t) :=
              fun hcon => ht hcon.2
            simp [hnot]
          have hms : metaSpec idx (l ++ [r]) t = metaSpec idx l t := by
            unfold metaSpec
            rw [hfilter]
          rw [lookupA_mapUpdateA_ne _ _ htne, hfilter, hms]
          by_cases hk : containsKeyA (buildPromoState idx l).tierMap
              (formatTierLabel (getCell r idx.tierIdx))
          · rw [if_pos hk]
            exact ihm t
          · rw [if_neg hk, lookupA_append]
            cases hlt : lookupA (buildPromoState idx l).tierMeta t with
            | some w =>
              simp only
              have hsp := ihm t
              rw [hlt] at hsp
              exact hsp
            | none =>
              simp only [lookupA, if_neg ht]
              have hsp := ihm t
              rw [hlt] at hsp
              exact hsp

end ServerJs

-- ---------------------------------------------------------------------------
-- Helper lemmas: the grouping loop of `generateRateSheetHtml`.
-- ---------------------------------------------------------------------------

namespace ServerJs

theorem lookupA_groupAdd_self (m : List (Cell × Sheet)) (k : Cell) (row : Row) :
    lookupA (groupAdd m k row) k = some ((lookupA m k).getD [] ++ [row]) := by
  unfold groupAdd
  by_cases h : containsKeyA m k
  · rw [if_pos h, lookupA_mapUpdateA_self]
    obtain ⟨w, hw⟩ := lookupA_some_of_contains h
    rw [hw]
    rfl
  · rw [if_neg h, lookupA_append, lookupA_none_of_not_contains h]
    simp [lookupA]

theorem lookupA_groupAdd_ne (m : List (Cell × Sheet)) {k k2 : Cell} (row : Row)
    (h : k2 ≠ k) : lookupA (groupAdd m k row) k2 = lookupA m k2 := by
  unfold groupAdd
  by_cases hc : containsKeyA m k
  · rw [if_pos hc, lookupA_mapUpdateA_ne _ _ h]
  · rw [if_neg hc, lookupA_append]
    cases hl : lookupA m k2 with
    | some w => rfl
    | none => simp [lookupA, if_neg (fun hx : k = k2 => h hx.symm)]

theorem lookupA_groupFold (stubIdx nameIdx : Int) (rows : Sheet) :
    ∀ (m0 : List (Cell × Sheet)) (k : Cell), k ≠ [] →
    lookupA (rows.foldl
      (fun m row =>
        let kr := rowKey stubIdx nameIdx row
        if kr = [] then m else groupAdd m kr row) m0) k =
      (match lookupA m0 k with
       | some prev => some (prev ++ rows.filter (fun r => decide (rowKey stubIdx nameIdx r = k)))
       | none =>
         if rows.filter (fun r => decide (rowKey stubIdx nameIdx r = k)) = [] then none
         else some (rows.filter (fun r => decide (rowKey stubIdx nameIdx r = k)))) := by
  induction rows with
  | nil =>
    intro m0 k hk
    cases hl : lookupA m0 k <;> simp [hl]
  | cons r rest ih =>
    intro m0 k hk
    simp only [List.foldl_cons]
    by_cases hkey : rowKey stubIdx nameIdx r = []
    · have hpred : ¬(rowKey stubIdx nameIdx r = k) := fun hx => hk (by rw [← hx, hkey])
      simp only [hkey, if_true]
      rw [ih m0 k hk]
      simp [List.filter_cons, hpred]
    · simp only [hkey, if_false]
      by_cases heq : rowKey stubIdx nameIdx r = k
      · rw [ih (groupAdd m0 (rowKey stubIdx nameIdx r) r) k hk]
        rw [heq, lookupA_groupAdd_self]
        simp only [List.filter_cons, heq]
        cases hl : lookupA m0 k with
        | some prev => simp [hl, List.append_assoc]
        | none => simp [hl]
      · rw [ih (groupAdd m0 (rowKey stubIdx nameIdx r) r) k hk]
        rw [lookupA_groupAdd_ne _ _ (fun hx : k = rowKey stubIdx nameIdx r => heq hx.symm)]
        simp [List.filter_cons, heq]

theorem lookupA_buildGroupMap (stubIdx nameIdx : Int) (rows : Sheet) (k : Cell) (hk : k ≠ []) :
    lookupA (buildGroupMap stubIdx nameIdx rows) k =
      (if rows.filter (fun r => decide (rowKey stubIdx nameIdx r = k)) = [] then none
       else some (rows.filter (fun r => decide (rowKey stubIdx nameIdx r = k)))) := by
  unfold buildGroupMap
  rw [lookupA_groupFold stubIdx nameIdx rows [] k hk]
  rfl

end ServerJs

-- ---------------------------------------------------------------------------
-- Helper lemmas: `indexOf` and first occurrences.
-- ---------------------------------------------------------------------------

theorem jsIndexOfAux_spec (p : List Char) : ∀ (t : List Char) (i : Nat),
    (jsIndexOfAux p t i = -1 ∧ ∀ j, occursAtB p t j = false) ∨
    (∃ n : Nat, jsIndexOfAux p t i = ((i + n : Nat) : Int) ∧ occursAtB p t n = true ∧
      ∀ j < n, occursAtB p t j = false) := by
  intro t
  induction t with
  | nil =>
    intro i
    by_cases h : p.isPrefixOf ([] : List Char)
    · right
      exact ⟨0, by simp [jsIndexOfAux, h], by simp [occursAtB, h],
        fun j hj => absurd hj (Nat.not_lt_zero j)⟩
    · left
      refine ⟨by simp [jsIndexOfAux, h], fun j => ?_⟩
      simp [occursAtB, h]
  | cons c rest ih =>
    intro i
    by_cases h : p.isPrefixOf (c :: rest)
    · right
      refine ⟨0, by simp [jsIndexOfAux, h], ?_, fun j hj => absurd hj (Nat.not_lt_zero j)⟩
      simp only [occursAtB, List.drop_zero]
      exact h
    · rcases ih (i + 1) with ⟨hidx, hall⟩ | ⟨n, hidx, hocc, hmin⟩
      · left
        refine ⟨by simp [jsIndexOfAux, h, hidx], fun j => ?_⟩
        cases j with
        | zero =>
          simp only [occursAtB, List.drop_zero]
          exact Bool.eq_false_iff.mpr h
        | succ j =>
          have := hall j
          simpa [occursAtB, List.drop_succ_cons] using this
      · right
        refine ⟨n + 1, ?_, ?_, ?_⟩
        · rw [show jsIndexOfAux p (c :: rest) i = jsIndexOfAux p rest (i + 1) from by
            simp [jsIndexOfAux, h], hidx]
          congr 1
          omega
        · simpa [occursAtB, List.drop_succ_cons] using hocc
        · intro j hj
          cases j with
          | zero =>
            simp only [occursAtB, List.drop_zero]
            exact Bool.eq_false_iff.mpr h
          | succ j =>
            have := hmin j (by omega)
            simpa [occursAtB, List.drop_succ_cons] using this

theorem jsIndexOfL_spec (t p : List Char) :
    (jsIndexOfL t p = -1 ∧ ∀ j, occursAtB p t j = false) ∨
    (∃ n : Nat, jsIndexOfL t p = (n : Int) ∧ occursAtB p t n = true ∧
      ∀ j < n, occursAtB p t j = false) := by
  have := jsIndexOfAux_spec p t 0
  simpa [jsIndexOfL] using this

theorem jsIndexOfL_eq_of_first {t p : List Char} {n : Nat}
    (hocc : occursAtB p t n = true) (hmin : ∀ j < n, occursAtB p t j = false) :
    jsIndexOfL t p = (n : Int) := by
  rcases jsIndexOfL_spec t p with ⟨hneg, hall⟩ | ⟨n2, hidx, hocc2, hmin2⟩
  · rw [hall n] at hocc
    exact absurd hocc (by simp)
  · have hn : n2 = n := by
      by_contra hne
      rcases Nat.lt_or_ge n2 n with hlt | hge
      · rw [hmin n2 hlt] at hocc2
        exact absurd hocc2 (by simp)
      · have hlt2 : n < n2 := lt_of_le_of_ne hge (Ne.symm hne)
        rw [hmin2 n hlt2] at hocc
        exact absurd hocc (by simp)
    rw [hidx, hn]

theorem jsIndexOfL_eq_neg_of_none {t p : List Char}
    (hall : ∀ j, occursAtB p t j = false) : jsIndexOfL t p = -1 := by
  rcases jsIndexOfL_spec t p with ⟨hneg, _⟩ | ⟨n2, _, hocc2, _⟩
  · exact hneg
  · rw [hall n2] at hocc2
    exact absurd hocc2 (by simp)

-- ---------------------------------------------------------------------------
-- Helper lemmas: `setTier` of `src/unnamed/part_001`.
-- ---------------------------------------------------------------------------

namespace P1

theorem setTier_fee_overwrites (row : Row) (termLabel : Cell) (g : P1Group) (tierName : Cell)
    (rateIdx feeIdx : Int) (hr : rateIdx ≠ -1) (hrate : jsTrim (getCell row rateIdx) ≠ [])
    (hf : feeIdx ≠ -1) (hfee : jsTrim (getCell row feeIdx) ≠ []) :
    lookupA (setTier row termLabel g tierName rateIdx feeIdx).tierFees tierName
      = some (jsTrim (getCell row feeIdx)) := by
  unfold setTier
  rw [if_neg hr, if_neg hrate]
  simp only [if_pos hf, if_pos hfee]
  exact lookupA_setPropA_self _ _ _

theorem setTier_rate_writes (row : Row) (termLabel : Cell) (g : P1Group) (tierName : Cell)
    (rateIdx feeIdx : Int) (hr : rateIdx ≠ -1) (hrate : jsTrim (getCell row rateIdx) ≠ []) :
    (lookupA (setTier row termLabel g tierName rateIdx feeIdx).tierRates tierName).bind
      (fun inner => lookupA inner termLabel) = some (jsTrim (getCell row rateIdx)) := by
  unfold setTier
  rw [if_neg hr, if_neg hrate]
  simp only
  by_cases hk : containsKeyA g.tierRates tierName
  · rw [if_pos hk, lookupA_mapUpdateA_self]
    obtain ⟨inner, hin⟩ := lookupA_some_of_contains hk
    rw [hin]
    simp [lookupA_setPropA_self]
  · rw [if_neg hk, lookupA_mapUpdateA_self, lookupA_append,
      lookupA_none_of_not_contains hk]
    simp [lookupA, lookupA_setPropA_self]

end P1

-- ---------------------------------------------------------------------------
-- Claim theorems.
-- ---------------------------------------------------------------------------

/-- C9: term-label normalization is idempotent.  For every input string,
applying `formatTermLabel` (`src/server.js`) twice equals applying it once,
and likewise for `termLabelFrom` (`src/unnamed/part_001`); in particular
`"36M"` normalizes to `"36M"`, and `"36.0"` normalizes (by `termLabelFrom`)
to `"36M"`, which normalizes to itself. -/
theorem c9_normalization_idempotent :
    (∀ l : List Char, ServerJs.formatTermLabel (ServerJs.formatTermLabel l)
        = ServerJs.formatTermLabel l) ∧
    (∀ l : List Char, P1.termLabelFrom (P1.termLabelFrom l) = P1.termLabelFrom l) ∧
    ServerJs.formatTermLabel (("36M").data) = ("36M").data ∧
    P1.termLabelFrom (("36.0").data) = ("36M").data ∧
    P1.termLabelFrom (("36M").data) = ("36M").data :=
  ⟨formatTermLabel_idem, termLabelFrom_idem, by decide, by decide, by decide⟩

/-- C3 counterexample: `formatTermLabel` in `src/server.js` leaves the
numeric-looking value `"36.0"` unchanged instead of canonicalizing it to
`"36M"`, so term-label normalization as implemented there does not map
`"36.0"` to `<integer>M`. -/
theorem c3_counterexample :
    ServerJs.formatTermLabel (("36.0").data) = ("36.0").data ∧
    ("36.0").data ≠ ("36M").data := by decide

/-- C3 (amended): `termLabelFrom` (`src/unnamed/part_001`) canonicalizes
values with a parseable numeric prefix — both `"36.0"` and `"36 Months"` —
to `"36M"`, while `formatTermLabel` (`src/server.js`) canonicalizes only
`<digits> month…` forms such as `"36 Months"` and passes `"36.0"` through
unchanged; both functions return text they cannot read numerically
unchanged apart from trimming. -/
theorem c3_term_normalization_amended :
    P1.termLabelFrom (("36.0").data) = ("36M").data ∧
    P1.termLabelFrom (("36 Months").data) = ("36M").data ∧
    ServerJs.formatTermLabel (("36 Months").data) = ("36M").data ∧
    ServerJs.formatTermLabel (("36.0").data) = ("36.0").data ∧
    (∀ l : List Char, ServerJs.monthDigits (jsTrim l) = none →
      ServerJs.formatTermLabel l = jsTrim l) ∧
    (∀ l : List Char, jsParseFloatL (jsTrim l) = none → P1.termLabelFrom l = jsTrim l) := by
  refine ⟨by decide, by decide, by decide, by decide, ?_, fun l h => termLabelFrom_of_none h⟩
  intro l h
  by_cases h0 : l = []
  · subst h0; rfl
  · exact formatTermLabel_of_none h0 h

/-- C3 witness: the general non-numeric clauses of the amended claim applied
at the concrete input `"  Used Sleds  "`. -/
theorem c3_witness :
    ServerJs.formatTermLabel (("  Used Sleds  ").data) = ("Used Sleds").data ∧
    P1.termLabelFrom (("  Used Sleds  ").data) = ("Used Sleds").data := by
  constructor
  · have h := c3_term_normalization_amended.2.2.2.2.1 (("  Used Sleds  ").data) (by decide)
    rw [h]
    decide
  · have h := c3_term_normalization_amended.2.2.2.2.2 (("  Used Sleds  ").data) (by decide)
    rw [h]
    decide

/-- C1: the claim — every literal text value interpolated into rendered
HTML passes through escaping of `&`, `<`, `>`, `"` and `'` — is the spec's
stated contract, and the code breaks it: `generateTableHTML` in
`src/unnamed/part_000` interpolates the title raw and every header/data
cell through `clean` only, so a cell `<b>` is emitted verbatim inside the
`<td>`; and `escapeHtml` in `src/unnamed/part_001` never escapes the
apostrophe (for contrast, `escapeHtml` in `src/server.js` escapes all
five characters). -/
theorem c1_unescaped_render :
    hasSubstr (("<td><b></td>").data)
      (P0.generateTableHTML ⟨("T").data, [("H").data], [[("<b>").data]]⟩) = true ∧
    P1.escapeHtml [aposC] = [aposC] ∧
    ServerJs.escapeHtml [aposC] = ("&#039;").data := by decide

/-- C4 counterexample: a CSV whose header row is just `Table Group` and
`Eligible Products/Models` — no cell containing `Tier` at all — is
classified `promo` by `detectCsvType` (`src/unnamed/part_000`), and
`parsePromo` then throws on that same input, so detection does not require
a tier column. -/
theorem c4_counterexample :
    P0.detectCsvType
        [[("Table Group").data, ("Eligible Products/Models").data],
         [("Snowmobile").data, ("All 2025 models").data]] = some P0.DetectT.promo ∧
    (([("Table Group").data, ("Eligible Products/Models").data] : Row).all
        (fun c => !(hasSubstr (("Tier").data) c))) = true ∧
    P0.parsePromo
        [[("Table Group").data, ("Eligible Products/Models").data],
         [("Snowmobile").data, ("All 2025 models").data]]
      = .error (("CSV missing required promotional headers.").data) := by decide

/-- C4 (amended): `detectCsvType` reports `promo` exactly when the joined
cleaned header contains both `"Table Group"` and `"Eligible Products"` —
no tier condition — and a header without an exact `"Tiers"` cell makes
`parsePromo` fail with its missing-headers error. -/
theorem c4_promo_detection_amended :
    (∀ (h : Row) (rest : Sheet),
      (P0.detectCsvType (h :: rest) = some P0.DetectT.promo ↔
        (hasSubstr (("Table Group").data)
            (List.intercalate ((" | ").data) (h.map P0.clean)) = true ∧
         hasSubstr (("Eligible Products").data)
            (List.intercalate ((" | ").data) (h.map P0.clean)) = true))) ∧
    (∀ (h : Row) (rest : Sheet),
      ("Tiers").data ∉ h.map P0.clean →
      P0.parsePromo (h :: rest)
        = .error (("CSV missing required promotional headers.").data)) := by
  constructor
  · intro h rest
    simp only [P0.detectCsvType]
    by_cases hc : (hasSubstr (("Table Group").data)
        (List.intercalate ((" | ").data) (h.map P0.clean)) &&
      hasSubstr (("Eligible Products").data)
        (List.intercalate ((" | ").data) (h.map P0.clean))) = true
    · rw [if_pos hc]
      rw [Bool.and_eq_true] at hc
      exact ⟨fun _ => hc, fun _ => rfl⟩
    · rw [if_neg hc]
      constructor
      · intro hcontra
        by_cases h2 : hasSubstr (("STANDARD PROGRAM").data)
            ((List.intercalate ((" ").data)
              (((h :: rest).take 10).map (List.intercalate ((" ").data)))).map Char.toUpper) = true
        · rw [if_pos h2] at hcontra
          exact absurd hcontra (by simp)
        · rw [if_neg h2] at hcontra
          exact absurd hcontra (by simp)
      · intro hab
        refine absurd ?_ hc
        rw [hab.1, hab.2]
        rfl
  · intro h rest hmem
    have htier : jsIndexOfExact (h.map P0.clean) (("Tiers").data) = -1 := by
      unfold jsIndexOfExact
      have hnone : (h.map P0.clean).findIdx? (fun c => c == ("Tiers").data) = none := by
        rw [List.findIdx?_eq_none_iff]
        intro x hx
        by_cases hbe : x = ("Tiers").data
        · exact absurd (hbe ▸ hx) hmem
        · simp [hbe]
      rw [hnone]
    simp only [P0.parsePromo]
    rw [if_pos (Or.inr (Or.inr htier))]

/-- C4 witness: the missing-`Tiers` clause applied at a concrete header
`["Alpha"]` that has no `Tiers` cell. -/
theorem c4_witness :
    P0.parsePromo [[("Alpha").data], [("x").data]]
      = .error (("CSV missing required promotional headers.").data) :=
  c4_promo_detection_amended.2 [("Alpha").data] [[("x").data]] (by decide)

set_option maxRecDepth 100000 in
/-- C2 counterexample: with a `program name` column present, the data row
whose program-name cell is empty (but which is otherwise non-blank, holding
tier `2`, rate `6%`, term `48 months` and product `SummitX`) is placed in
no group by `buildGroupMap`, and the rendered sheet contains the grouped
row's rate `5%` but nothing of the dropped row — there is no per-row
fallback to Product + Model Years. -/
theorem c2_counterexample :
    ServerJs.buildGroupMap (-1) 0
        [[("Alpha").data, ("1").data, ("5%").data, ("36 months").data, []],
         [[], ("2").data, ("6%").data, ("48 months").data, ("SummitX").data]]
      = [(("Alpha").data,
          [[("Alpha").data, ("1").data, ("5%").data, ("36 months").data, []]])] ∧
    hasSubstr (("5%").data)
      (ServerJs.generateRateSheetHtml
        [[("program name").data, ("tier").data, ("interest rate").data,
          ("repayment term").data, ("product").data],
         [("Alpha").data, ("1").data, ("5%").data, ("36 months").data, []],
         [[], ("2").data, ("6%").data, ("48 months").data, ("SummitX").data]]) = true ∧
    hasSubstr (("6%").data)
      (ServerJs.generateRateSheetHtml
        [[("program name").data, ("tier").data, ("interest rate").data,
          ("repayment term").data, ("product").data],
         [("Alpha").data, ("1").data, ("5%").data, ("36 months").data, []],
         [[], ("2").data, ("6%").data, ("48 months").data, ("SummitX").data]]) = false ∧
    hasSubstr (("SummitX").data)
      (ServerJs.generateRateSheetHtml
        [[("program name").data, ("tier").data, ("interest rate").data,
          ("repayment term").data, ("product").data],
         [("Alpha").data, ("1").data, ("5%").data, ("36 months").data, []],
         [[], ("2").data, ("6%").data, ("48 months").data, ("SummitX").data]]) = false := by
  decide

/-- C2 (amended): `buildGroupMap` groups exactly by `rowKey` (trimmed
Program Name Stub if present and non-empty, else trimmed Program Name):
looking up a non-empty key returns precisely the rows whose key equals it,
in order, and a row whose key is empty belongs to no group at all. -/
theorem c2_grouping_amended :
    (∀ (stubIdx nameIdx : Int) (rows : Sheet) (k : Cell), k ≠ [] →
      lookupA (ServerJs.buildGroupMap stubIdx nameIdx rows) k =
        (if rows.filter (fun r => decide (ServerJs.rowKey stubIdx nameIdx r = k)) = []
          then none
          else some (rows.filter (fun r => decide (ServerJs.rowKey stubIdx nameIdx r = k))))) ∧
    (∀ (stubIdx nameIdx : Int) (rows : Sheet) (r : Row) (k : Cell) (g : Sheet),
      ServerJs.rowKey stubIdx nameIdx r = [] → k ≠ [] →
      lookupA (ServerJs.buildGroupMap stubIdx nameIdx rows) k = some g →
      r ∉ g) := by
  refine ⟨fun stubIdx nameIdx rows k hk =>
    ServerJs.lookupA_buildGroupMap stubIdx nameIdx rows k hk, ?_⟩
  intro stubIdx nameIdx rows r k g hr hk hg
  rw [ServerJs.lookupA_buildGroupMap stubIdx nameIdx rows k hk] at hg
  by_cases hf : rows.filter (fun r2 => decide (ServerJs.rowKey stubIdx nameIdx r2 = k)) = []
  · rw [if_pos hf] at hg
    exact absurd hg (by simp)
  · rw [if_neg hf] at hg
    have hgg : rows.filter (fun r2 => decide (ServerJs.rowKey stubIdx nameIdx r2 = k)) = g := by
      injection hg
    intro hmem
    rw [← hgg] at hmem
    have hdec := (List.mem_filter.mp hmem).2
    have h2 := of_decide_eq_true hdec
    rw [hr] at h2
    exact hk h2.symm

/-- C2 witness: the group-lookup clause applied at a concrete sheet and the
non-empty key `"Alpha"`. -/
theorem c2_witness :
    lookupA (ServerJs.buildGroupMap (-1) 0
        [[("Alpha").data, ("1").data, ("5%").data, ("36 months").data, []],
         [[], ("2").data, ("6%").data, ("48 months").data, ("SummitX").data]])
      (("Alpha").data)
      = some [[("Alpha").data, ("1").data, ("5%").data, ("36 months").data, []]] := by
  have h := c2_grouping_amended.1 (-1) 0
    [[("Alpha").data, ("1").data, ("5%").data, ("36 months").data, []],
     [[], ("2").data, ("6%").data, ("48 months").data, ("SummitX").data]]
    (("Alpha").data) (by decide)
  rw [h]
  decide

/-- C5: when a tier/term pair occurs more than once, the last occurrence's
rate wins.  In `buildPromoBlock` (`src/server.js`), a valid row whose
tier/term labels collide with no later valid row ends up as the stored
pivot rate regardless of earlier rows; and in `setTier`
(`src/unnamed/part_001`), a non-empty trimmed rate is always written over
whatever the tier/term slot held before. -/
theorem c5_last_write_wins :
    (∀ (idx : ServerJs.PromoIdx) (l1 : Sheet) (r : Row) (l2 : Sheet),
      ServerJs.validRow idx r →
      (∀ r2 ∈ l2, ServerJs.validRow idx r2 →
        ¬(ServerJs.formatTierLabel (getCell r2 idx.tierIdx)
            = ServerJs.formatTierLabel (getCell r idx.tierIdx) ∧
          ServerJs.formatTermLabel (getCell r2 idx.termIdx)
            = ServerJs.formatTermLabel (getCell r idx.termIdx))) →
      ServerJs.rateAt (ServerJs.buildPromoState idx (l1 ++ r :: l2))
          (ServerJs.formatTierLabel (getCell r idx.tierIdx))
          (ServerJs.formatTermLabel (getCell r idx.termIdx))
        = some (jsTrim (getCell r idx.rateIdx))) ∧
    (∀ (row : Row) (termLabel : Cell) (g : P1.P1Group) (tierName : Cell) (rateIdx feeIdx : Int),
      rateIdx ≠ -1 → jsTrim (getCell row rateIdx) ≠ [] →
      (lookupA (P1.setTier row termLabel g tierName rateIdx feeIdx).tierRates tierName).bind
          (fun inner => lookupA inner termLabel) = some (jsTrim (getCell row rateIdx))) := by
  constructor
  · intro idx l1 r l2 hv hno
    unfold ServerJs.buildPromoState
    rw [List.foldl_append, List.foldl_cons]
    exact ServerJs.rateAt_foldl_preserve idx l2 _ _ _ _
      (ServerJs.rateAt_promoStep_self idx (ServerJs.buildPromoState idx l1) r hv) hno
  · intro row termLabel g tierName rateIdx feeIdx hr hrate
    exact P1.setTier_rate_writes row termLabel g tierName rateIdx feeIdx hr hrate

/-- C5 witness: two rows for tier `1` and term `36 months` with rates
`4.99` then `5.49`; the stored pivot rate is the later `5.49`. -/
theorem c5_witness :
    ServerJs.rateAt (ServerJs.buildPromoState ⟨0, 1, 2, -1, -1, -1, -1, -1, -1⟩
        [[("1").data, ("4.99").data, ("36 months").data],
         [("1").data, ("5.49").data, ("36 months").data]])
        (("Tier 1").data) (("36M").data) = some (("5.49").data) := by
  have h := c5_last_write_wins.1 ⟨0, 1, 2, -1, -1, -1, -1, -1, -1⟩
    [[("1").data, ("4.99").data, ("36 months").data]]
    [("1").data, ("5.49").data, ("36 months").data] []
    (by decide) (by intro r2 hr2; exact absurd hr2 (List.not_mem_nil r2))
  exact h

set_option maxRecDepth 100000 in
/-- C6 counterexample: in `buildTablesHtmlFromCsv`
(`src/unnamed/part_001`), two rows of the same group carry Tier 1 dealer
fees `100` then `200`; the stored fee is the later `200`, not the first
non-empty value — `setTier` overwrites `tierFees` on every non-empty fee. -/
theorem c6_counterexample :
    Option.map (fun g => lookupA (P1.P1Group.tierFees g) (("Tier 1").data))
        (lookupA (P1.p1Groups
            (P1.p1Indices
              [("Product").data, ("Eligible Model Years").data, ("Repayment Term").data,
               ("Promo Rate RT 1").data, ("Promo Rate RT 2").data, ("Dealer Fee RT 1").data])
            [[("ATV").data, ("2025").data, ("36").data, ("4.99").data, ("5.99").data,
              ("100").data],
             [("ATV").data, ("2025").data, ("48").data, ("5.49").data, ("6.49").data,
              ("200").data]])
          (("ATV|||2025").data))
      = some (some (("200").data)) ∧
    ("200").data ≠ ("100").data := by decide

/-- C6 (amended): tier metadata in `buildPromoBlock` (`src/server.js`) is
first-non-empty-after-trim per tier — any stored metadata record equals
`metaSpec`, whose three fields are the first valid matching row whose
trimmed down-payment / cap / fee cell is non-empty — whereas `setTier` in
`src/unnamed/part_001` overwrites the tier's dealer fee with every
non-empty trimmed fee cell, so there the LAST non-empty fee wins. -/
theorem c6_metadata_amended :
    (∀ (idx : ServerJs.PromoIdx) (rows : Sheet) (t : Cell) (mta : ServerJs.MetaS),
      lookupA (ServerJs.buildPromoState idx rows).tierMeta t = some mta →
      mta = ServerJs.metaSpec idx rows t) ∧
    (∀ (row : Row) (termLabel : Cell) (g : P1.P1Group) (tierName : Cell) (rateIdx feeIdx : Int),
      rateIdx ≠ -1 → jsTrim (getCell row rateIdx) ≠ [] →
      feeIdx ≠ -1 → jsTrim (getCell row feeIdx) ≠ [] →
      lookupA (P1.setTier row termLabel g tierName rateIdx feeIdx).tierFees tierName
        = some (jsTrim (getCell row feeIdx))) := by
  constructor
  · intro idx rows t mta h
    have hm := (ServerJs.buildPromoState_meta idx rows).2 t
    rw [h] at hm
    by_cases hf : ServerJs.filterValidTier idx t rows = []
    · rw [if_pos hf] at hm
      exact absurd hm (by simp)
    · rw [if_neg hf] at hm
      injection hm
  · intro row termLabel g tierName rateIdx feeIdx hr hrate hf hfee
    exact P1.setTier_fee_overwrites row termLabel g tierName rateIdx feeIdx hr hrate hf hfee

/-- C6 witness: both clauses at concrete inputs — a pivot whose first
matching down-payment cell is whitespace stores the second row's `10%`,
and a concrete `setTier` call stores the row's trimmed fee cell. -/
theorem c6_witness :
    (⟨("10%").data, [], []⟩ : ServerJs.MetaS)
        = ServerJs.metaSpec ⟨0, 1, 2, 3, -1, -1, -1, -1, -1⟩
          [[("1").data, ("5%").data, ("36 months").data, (" ").data],
           [("1").data, ("6%").data, ("48 months").data, ("10%").data]]
          (("Tier 1").data) ∧
    lookupA (P1.setTier [("4.99").data, ("200").data] (("36M").data)
          ⟨[], [], [], [], []⟩ (("Tier 1").data) 0 1).tierFees (("Tier 1").data)
      = some (jsTrim (getCell [("4.99").data, ("200").data] (1 : Int))) := by
  constructor
  · exact c6_metadata_amended.1 ⟨0, 1, 2, 3, -1, -1, -1, -1, -1⟩
      [[("1").data, ("5%").data, ("36 months").data, (" ").data],
       [("1").data, ("6%").data, ("48 months").data, ("10%").data]]
      (("Tier 1").data) ⟨("10%").data, [], []⟩ (by decide)
  · exact c6_metadata_amended.2 [("4.99").data, ("200").data] (("36M").data)
      ⟨[], [], [], [], []⟩ (("Tier 1").data) 0 1
      (by decide) (by decide) (by decide) (by decide)

theorem mem_setAddA {α : Type} [DecidableEq α] (s : List α) (x y : α) (h : x ∈ s) :
    x ∈ setAddA s y := by
  unfold setAddA
  by_cases hy : y ∈ s
  · rwa [if_pos hy]
  · rw [if_neg hy]
    exact List.mem_append_left _ h

theorem self_mem_setAddA {α : Type} [DecidableEq α] (s : List α) (x : α) : x ∈ setAddA s x := by
  unfold setAddA
  by_cases hx : x ∈ s
  · rwa [if_pos hx]
  · rw [if_neg hx]
    simp

theorem eligSet_fold_mono (idx : ServerJs.PromoIdx) :
    ∀ (rows : Sheet) (acc : List Cell) (x : Cell), x ∈ acc →
      x ∈ rows.foldl
        (fun s row =>
          let t := ServerJs.eligText idx row
          if t ≠ [] then setAddA s t else s) acc := by
  intro rows
  induction rows with
  | nil => intro acc x hx; exact hx
  | cons r rest ih =>
    intro acc x hx
    simp only [List.foldl_cons]
    apply ih
    by_cases ht : ServerJs.eligText idx r ≠ []
    · simp only [if_pos ht]
      exact mem_setAddA acc x _ hx
    · simpa only [if_neg ht] using hx

theorem eligText_mem_eligSet (idx : ServerJs.PromoIdx) (l1 : Sheet) (r : Row) (l2 : Sheet)
    (h : ServerJs.eligText idx r ≠ []) :
    ServerJs.eligText idx r ∈ ServerJs.eligSet idx (l1 ++ r :: l2) := by
  unfold ServerJs.eligSet
  rw [List.foldl_append, List.foldl_cons]
  apply eligSet_fold_mono
  simp only [if_pos h]
  exact self_mem_setAddA _ _

set_option maxRecDepth 100000 in
/-- C7 counterexample: in `generateRateSheetHtml` (`src/server.js`) the
row for `GhostProduct` is missing its rate cell, so the pivot skips it —
yet the rendered block's Eligible Products list, which is built from ALL
rows of the block, still shows `GhostProduct`; skipped rows are not
entirely without effect on the rendered output. -/
theorem c7_counterexample :
    getCell [("2").data, [], ("48 months").data, ("GhostProduct").data] (1 : Int) = [] ∧
    hasSubstr (("GhostProduct").data)
      (ServerJs.generateRateSheetHtml
        [[("Tier").data, ("Interest Rate").data, ("Repayment Term").data, ("Product").data],
         [("1").data, ("5.9%").data, ("36 months").data, ("AlphaSled").data],
         [("2").data, [], ("48 months").data, ("GhostProduct").data]]) = true := by decide

/-- C7 (amended): a data row missing its tier, rate or term cell is skipped
by the pivot with no error — the pivot state over the sheet with the row
equals the state over the sheet without it — but the row still contributes
its eligibility text to the block's eligibility set when that text is
non-empty. -/
theorem c7_skip_amended :
    ∀ (idx : ServerJs.PromoIdx) (l1 : Sheet) (r : Row) (l2 : Sheet),
      ¬ServerJs.validRow idx r →
      (ServerJs.buildPromoState idx (l1 ++ r :: l2) = ServerJs.buildPromoState idx (l1 ++ l2) ∧
       (ServerJs.eligText idx r ≠ [] →
        ServerJs.eligText idx r ∈ ServerJs.eligSet idx (l1 ++ r :: l2))) :=
  fun idx l1 r l2 h =>
    ⟨ServerJs.buildPromoState_skip idx l1 r l2 h,
     fun hne => eligText_mem_eligSet idx l1 r l2 hne⟩

/-- C7 witness: both clauses at the `GhostProduct` sheet — the pivot state
is unchanged by the skipped row, whose eligibility text still enters the
eligibility set. -/
theorem c7_witness :
    ServerJs.buildPromoState ⟨0, 1, 2, -1, -1, -1, -1, 3, -1⟩
        ([[("1").data, ("5.9%").data, ("36 months").data, ("AlphaSled").data]] ++
          [("2").data, [], ("48 months").data, ("GhostProduct").data] :: [])
      = ServerJs.buildPromoState ⟨0, 1, 2, -1, -1, -1, -1, 3, -1⟩
        ([[("1").data, ("5.9%").data, ("36 months").data, ("AlphaSled").data]] ++ []) ∧
    ServerJs.eligText ⟨0, 1, 2, -1, -1, -1, -1, 3, -1⟩
        [("2").data, [], ("48 months").data, ("GhostProduct").data]
      ∈ ServerJs.eligSet ⟨0, 1, 2, -1, -1, -1, -1, 3, -1⟩
        ([[("1").data, ("5.9%").data, ("36 months").data, ("AlphaSled").data]] ++
          [("2").data, [], ("48 months").data, ("GhostProduct").data] :: []) := by
  have h := c7_skip_amended ⟨0, 1, 2, -1, -1, -1, -1, 3, -1⟩
    [[("1").data, ("5.9%").data, ("36 months").data, ("AlphaSled").data]]
    [("2").data, [], ("48 months").data, ("GhostProduct").data] [] (by decide)
  exact ⟨h.1, h.2 (by decide)⟩

/-- C8 counterexample: the template
`<!-- TABLES_END --><!-- TABLES_START --><!-- TABLES_END -->` does contain
an occurrence of the end marker (at position 40) after the start marker
(at position 19), yet `applyTablesToTemplate` (`src/unnamed/part_001`)
throws: it compares only the FIRST occurrence of each marker, and the
first end marker (position 0) precedes the start marker. -/
theorem c8_counterexample :
    P1.applyTablesToTemplate
        (("<!-- TABLES_END --><!-- TABLES_START --><!-- TABLES_END -->").data) (("X").data)
      = .error (("Could not find TABLES_START / TABLES_END markers in template.html").data) ∧
    occursAtB P1.startMarker
      (("<!-- TABLES_END --><!-- TABLES_START --><!-- TABLES_END -->").data) 19 = true ∧
    occursAtB P1.endMarker
      (("<!-- TABLES_END --><!-- TABLES_START --><!-- TABLES_END -->").data) 40 = true ∧
    19 < 40 := by decide

/-- C8 (amended): `applyTablesToTemplate` splices on the FIRST occurrence
of each marker: when the first start occurrence is at `i`, the first end
occurrence at `j`, and `i < j`, it returns the document up to and
including the start marker, a newline, the fragment, a newline, and the
document from `j` on; it throws exactly when a marker never occurs or the
first end occurrence is at or before the first start occurrence. -/
theorem c8_splice_amended :
    (∀ (template frag : List Char) (i j : Nat),
      occursAtB P1.startMarker template i = true →
      (∀ i2 < i, occursAtB P1.startMarker template i2 = false) →
      occursAtB P1.endMarker template j = true →
      (∀ j2 < j, occursAtB P1.endMarker template j2 = false) →
      i < j →
      P1.applyTablesToTemplate template frag =
        .ok (template.take (i + P1.startMarker.length) ++ ('\n' :: frag) ++
          ('\n' :: template.drop j))) ∧
    (∀ (template frag : List Char),
      ((∀ i2, occursAtB P1.startMarker template i2 = false) ∨
       (∀ j2, occursAtB P1.endMarker template j2 = false) ∨
       (∃ i j : Nat, occursAtB P1.startMarker template i = true ∧
         (∀ i2 < i, occursAtB P1.startMarker template i2 = false) ∧
         occursAtB P1.endMarker template j = true ∧
         (∀ j2 < j, occursAtB P1.endMarker template j2 = false) ∧ j ≤ i)) →
      P1.applyTablesToTemplate template frag
        = .error (("Could not find TABLES_START / TABLES_END markers in template.html").data)) := by
  constructor
  · intro template frag i j hi himin hj hjmin hij
    have hsi : jsIndexOfL template P1.startMarker = (i : Int) := jsIndexOfL_eq_of_first hi himin
    have hsj : jsIndexOfL template P1.endMarker = (j : Int) := jsIndexOfL_eq_of_first hj hjmin
    simp only [P1.applyTablesToTemplate, hsi, hsj]
    rw [if_neg]
    · simp [Int.toNat_natCast]
    · rintro (h | h | h) <;> omega
  · intro template frag hcase
    have hcond : jsIndexOfL template P1.startMarker = -1 ∨
        jsIndexOfL template P1.endMarker = -1 ∨
        jsIndexOfL template P1.endMarker ≤ jsIndexOfL template P1.startMarker := by
      rcases hcase with hno | hno | ⟨i, j, hi, himin, hj, hjmin, hji⟩
      · exact Or.inl (jsIndexOfL_eq_neg_of_none hno)
      · exact Or.inr (Or.inl (jsIndexOfL_eq_neg_of_none hno))
      · refine Or.inr (Or.inr ?_)
        rw [jsIndexOfL_eq_of_first hi himin, jsIndexOfL_eq_of_first hj hjmin]
        exact_mod_cast hji
    simp only [P1.applyTablesToTemplate]
    rw [if_pos hcond]

/-- C8 witness: the success clause at the template
`A<!-- TABLES_START -->B<!-- TABLES_END -->C` (first start occurrence at
1, first end occurrence at 23) with fragment `X`. -/
theorem c8_witness :
    P1.applyTablesToTemplate
        (("A<!-- TABLES_START -->B<!-- TABLES_END -->C").data) (("X").data)
      = .ok ((("A<!-- TABLES_START -->").data) ++ ('\n' :: ("X").data) ++
          ('\n' :: ("<!-- TABLES_END -->C").data)) := by
  have h := c8_splice_amended.1
    (("A<!-- TABLES_START -->B<!-- TABLES_END -->C").data) (("X").data) 1 23
    (by decide) (by decide) (by decide) (by decide) (by decide)
  rw [h]
  decide

/-- C10: every body row emitted for a group by `buildTablesHtmlFromCsv`
(`src/unnamed/part_001`) is a tier of the fixed tier order followed by one
rate cell per sorted term, then exactly the constants `"0%"` (Down
Payment) and `"130%"` (Front-End Cap) and the group's stored dealer fee
for that tier (empty when none). -/
theorem c10_constant_metadata_cells :
    ∀ (idx : P1.P1Idx) (rows : Sheet) (key : Cell) (g : P1.P1Group) (rc : List Cell),
      lookupA (P1.p1Groups idx rows) key = some g →
      rc ∈ P1.p1RowsFor g →
      ∃ (tierName : Cell) (rates : List Cell),
        tierName ∈ P1.p1TierOrder ∧
        rates.length = (P1.p1SortTerms g.terms).length ∧
        rc = tierName :: (rates ++ [("0%").data, ("130%").data,
          (lookupA g.tierFees tierName).getD []]) := by
  intro idx rows key g rc _ hmem
  unfold P1.p1RowsFor at hmem
  obtain ⟨tierName, htn, hf⟩ := List.mem_filterMap.mp hmem
  cases hl : lookupA g.tierRates tierName with
  | none =>
    rw [hl] at hf
    exact absurd hf (by simp)
  | some tierRates =>
    rw [hl] at hf
    simp only [Option.some.injEq] at hf
    refine ⟨tierName, (P1.p1SortTerms g.terms).map (fun tl => (lookupA tierRates tl).getD []),
      htn, by simp, ?_⟩
    rw [← hf]
    

/-- C10 witness: the row-shape clause at a concrete two-term group built
from a six-column promo CSV; the Tier 1 row carries its two rates, then
`"0%"`, `"130%"` and the stored fee `"200"`. -/
theorem c10_witness :
    ∃ (tierName : Cell) (rates : List Cell),
      tierName ∈ P1.p1TierOrder ∧
      rates.length = (P1.p1SortTerms [("36M").data, ("48M").data]).length ∧
      (([("Tier 1").data, ("4.99").data, ("5.49").data, ("0%").data, ("130%").data,
          ("200").data] : List Cell)
        = tierName :: (rates ++ [("0%").data, ("130%").data,
            (lookupA [((("Tier 1").data), ("200").data)] tierName).getD []])) :=
  c10_constant_metadata_cells
    (P1.p1Indices
      [("Product").data, ("Eligible Model Years").data, ("Repayment Term").data,
       ("Promo Rate RT 1").data, ("Promo Rate RT 2").data, ("Dealer Fee RT 1").data])
    [[("ATV").data, ("2025").data, ("36").data, ("4.99").data, ("5.99").data, ("100").data],
     [("ATV").data, ("2025").data, ("48").data, ("5.49").data, ("6.49").data, ("200").data]]
    (("ATV|||2025").data)
    ⟨("ATV").data, ("2025").data, [("36M").data, ("48M").data],
     [((("Tier 1").data),
       [((("36M").data), ("4.99").data), ((("48M").data), ("5.49").data)]),
      ((("Tier 2").data),
       [((("36M").data), ("5.99").data), ((("48M").data), ("6.49").data)])],
     [((("Tier 1").data), ("200").data)]⟩
    [("Tier 1").data, ("4.99").data, ("5.49").data, ("0%").data, ("130%").data, ("200").data]
    (by decide) (by decide)
